import Mathlib

/-!
A shallow embedding of the field-collection and defer-grouping core of
`hayes/graphql-js` (`collectFields.mjs`, given as `src/unnamed/part_002`),
together with proofs about it.

JavaScript data structures are modelled as follows:
* a JS `Map` is an insertion-ordered association list `List (k × v)` with
  unique keys (`Map.set` updates in place or appends at the end);
* a JS `Set` is an insertion-ordered duplicate-free `List`;
* the `AccumulatorMap` (a `Map` from keys to arrays, `add` appending) is an
  association list `List (k × List v)`;
* `undefined`, used by the source as the sentinel for the non-deferred
  ("base") target, is the constructor `Target.base`;
* deferred targets, which the source compares by object identity, carry a
  numeric `id` drawn from a fresh counter, so that structural equality of
  the embedding coincides with reference equality of the source;
* exceptions (the `invariant` failure for `@defer` on subscriptions, and
  the `TypeError` a JS `undefined` map lookup would raise) are modelled by
  `Except CollectError`; possible non-termination of the recursive
  collector on a cyclic fragment table (ruled out by the external
  validator) is modelled by fuel, error `CollectError.outOfFuel`.
-/

set_option synthInstance.maxSize 1024

/-- A coerced GraphQL/JS runtime value, as produced by directive-argument
coercion.  Only the shapes inspected by this module are needed. -/
inductive JsValue where
  | bool (b : Bool)
  | str (s : String)
  | nullV
deriving DecidableEq, Repr

/-- A directive argument before coercion: either a literal value or a
variable reference. -/
inductive ArgValue where
  | value (v : JsValue)
  | varRef (name : String)
deriving DecidableEq, Repr

/-- A directive attached to a selection, with its (uncoerced) arguments. -/
structure DirectiveNode where
  name : String
  args : List (String × ArgValue)
deriving DecidableEq, Repr

abbrev VariableValues := List (String × JsValue)

/-- JS `Map.prototype.get`. -/
def mapGet [BEq α] : List (α × β) → α → Option β
  | [], _ => none
  | (k, v) :: rest, key => if k == key then some v else mapGet rest key

/-- JS `Map.prototype.set`: update the existing entry in place, or append a
new entry at the end. -/
def mapSet [BEq α] : List (α × β) → α → β → List (α × β)
  | [], key, v => [(key, v)]
  | (k, w) :: rest, key, v =>
    if k == key then (k, v) :: rest else (k, w) :: mapSet rest key v

/-- JS `Map.prototype.delete`: remove the (unique) entry with this key. -/
def mapDelete [BEq α] : List (α × β) → α → List (α × β)
  | [], _ => []
  | (k, v) :: rest, key => if k == key then rest else (k, v) :: mapDelete rest key

/-- JS `Set.prototype.add`: append unless already present. -/
def setAdd [BEq α] (s : List α) (a : α) : List α :=
  if s.contains a then s else s ++ [a]

/-- JS `new Set(list)`: insertion-ordered deduplication. -/
def jsSetOf [BEq α] (l : List α) : List α :=
  l.foldl setAdd []

/-- Modelled from the spec: `AccumulatorMap.add` (`jsutils/AccumulatorMap`,
not under `src/`) — "an ordered multimap from response key → ordered list",
appending to the existing list for the key, or creating a one-element list
in a fresh entry at the end. -/
def accAdd [BEq α] : List (α × List β) → α → β → List (α × List β)
  | [], key, v => [(key, [v])]
  | (k, vs) :: rest, key, v =>
    if k == key then (k, vs ++ [v]) :: rest else (k, vs) :: accAdd rest key v

/-- Modelled from the spec: coercion of a single directive argument
("producing typed directive argument maps from AST + variables"): a literal
keeps its value, a variable reference is looked up in the bound variable
values, and an unbound variable is omitted ("guarantees well-typed results
or omits the value"). -/
def coerceArg (variableValues : VariableValues) : ArgValue → Option JsValue
  | .value v => some v
  | .varRef n => mapGet variableValues n

/-- Modelled from the spec: `getDirectiveValues` (`execution/values.mjs`,
not under `src/`) — "coerceArguments(directiveDefinition, selectionNode,
variableValues) -> Option<Map<name, value>>": find the first directive with
the given name on the node and coerce its arguments; `none` when the node
does not carry the directive. -/
def getDirectiveValues (variableValues : VariableValues)
    (directives : List DirectiveNode) (directiveName : String) :
    Option (List (String × JsValue)) :=
  (directives.find? (fun d => d.name == directiveName)).map fun d =>
    d.args.filterMap fun a => (coerceArg variableValues a.2).map ((a.1, ·))

/-- A defer target.  `base` is the `undefined` sentinel
(`NON_DEFERRED_TARGET_SET = new Set([undefined])`); `deferred` is one of
the `{ ...defer, ancestors }` objects synthesized during collection, with a
fresh `id` standing for its object identity.  The source stores the
`ancestors` array in the object; since that array is always built as
`parentTarget === undefined ? [parentTarget] : [parentTarget,
...parentTarget.ancestors]`, a deferred target is represented by its
`parent` and the array is recovered by `Target.ancestorsOf`. -/
inductive Target where
  | base
  | deferred (id : Nat) (label : Option String) (parent : Target)
deriving DecidableEq, Repr

/-- The `ancestors` array of a target: exactly the list the source stores
when synthesizing the target (`[parentTarget, ...parentTarget.ancestors]`,
or `[undefined]` when the parent is the base sentinel).  The base sentinel
itself carries no such array and the source never reads one from it. -/
def Target.ancestorsOf : Target → List Target
  | .base => []
  | .deferred _ _ .base => [Target.base]
  | .deferred _ _ (.deferred i l gp) =>
    Target.deferred i l gp :: Target.ancestorsOf (Target.deferred i l gp)

/-- JS `newTarget ?? parentTarget`, where `Target.base` models
`undefined`. -/
def nullishOr : Target → Target → Target
  | .base, parentTarget => parentTarget
  | t, _ => t

/-- `NON_DEFERRED_TARGET_SET = new Set([undefined])`. -/
def NON_DEFERRED_TARGET_SET : List Target := [Target.base]

/-- Errors of the embedding: an `invariant` violation thrown by the source,
a JS `TypeError` from iterating/reading an `undefined` map lookup, or fuel
exhaustion (standing for non-termination on a cyclic fragment table). -/
inductive CollectError where
  | invariantViolation (msg : String)
  | missingEntry
  | outOfFuel
deriving DecidableEq, Repr

/-- `OperationTypeNode`. -/
inductive OperationTypeNode where
  | query
  | mutation
  | subscription
deriving DecidableEq, Repr

/-- A field AST node: `alias`, `name` and its directives (sub-selections
are not consulted by `collectFields`). -/
structure FieldNode where
  aliasName : Option String
  name : String
  directives : List DirectiveNode
deriving DecidableEq, Repr

/-- A selection: field, inline fragment, or fragment spread. -/
inductive Selection where
  | field (node : FieldNode)
  | inlineFragment (typeCondition : Option String) (directives : List DirectiveNode)
      (selectionSet : List Selection)
  | fragmentSpread (name : String) (directives : List DirectiveNode)

/-- A fragment definition from the fragment table. -/
structure FragmentDef where
  typeCondition : Option String
  selectionSet : List Selection

/-- Modelled from the spec: the schema facets consumed by this module
(`typeFromAST`, `isAbstractType`, `schema.isSubType` are not under
`src/`): named-type resolution and the abstract-subtype relation, with
types identified by name (a well-formed schema has one type object per
name, so name equality models object identity). -/
structure GraphQLSchema where
  typeNames : List String
  abstractTypeNames : List String
  subTypePairs : List (String × String)
deriving DecidableEq, Repr

/-- Modelled from the spec: `typeFromAST` — resolve a type-condition name
via the schema, `none` when unknown. -/
def typeFromAST (schema : GraphQLSchema) (name : String) : Option String :=
  if schema.typeNames.contains name then some name else none

/-- Modelled from the spec: `isAbstractType` (interface/union test). -/
def isAbstractType (schema : GraphQLSchema) (name : String) : Bool :=
  schema.abstractTypeNames.contains name

/-- Modelled from the spec: `schema.isSubType` — "the schema reports
candidateType as a subtype of it". -/
def isSubType (schema : GraphQLSchema) (abstractName candidate : String) : Bool :=
  schema.subTypePairs.contains (abstractName, candidate)

/-- The operation node: its kind and root selection set. -/
structure Operation where
  operation : OperationTypeNode
  selectionSet : List Selection

/-- `shouldIncludeNode` (part_002, lines 215–229): `@skip` wins, then
`@include`, default `true`. -/
def shouldIncludeNode (variableValues : VariableValues)
    (directives : List DirectiveNode) : Bool :=
  let skip := getDirectiveValues variableValues directives "skip"
  if (skip.bind (mapGet · "if")) == some (JsValue.bool true) then
    false
  else
    let incl := getDirectiveValues variableValues directives "include"
    if (incl.bind (mapGet · "if")) == some (JsValue.bool false) then
      false
    else
      true

/-- The record returned by `getDeferValues` on success. -/
structure DeferValues where
  label : Option String
deriving DecidableEq, Repr

/-- `getDeferValues` (part_002, lines 194–210): `none` when `@defer` is
absent or `if === false`; an `invariant` failure on subscriptions;
otherwise the label (kept only when it is a string). -/
def getDeferValues (operation : Operation) (variableValues : VariableValues)
    (directives : List DirectiveNode) :
    Except CollectError (Option DeferValues) :=
  match getDirectiveValues variableValues directives "defer" with
  | none => .ok none
  | some defer =>
    if mapGet defer "if" == some (JsValue.bool false) then
      .ok none
    else if operation.operation == OperationTypeNode.subscription then
      .error (.invariantViolation
        "`@defer` directive not supported on subscription operations. Disable `@defer` by setting the `if` argument to `false`.")
    else
      .ok (some { label := match mapGet defer "label" with
                           | some (JsValue.str s) => some s
                           | _ => none })

/-- `doesFragmentConditionMatch` (part_002, lines 233–246). -/
def doesFragmentConditionMatch (schema : GraphQLSchema)
    (typeCondition : Option String) (type : String) : Bool :=
  match typeCondition with
  | none => true
  | some typeConditionNode =>
    match typeFromAST schema typeConditionNode with
    | some conditionalType =>
      if conditionalType == type then true
      else if isAbstractType schema conditionalType then
        isSubType schema conditionalType type
      else false
    | none => false

/-- `getFieldEntryKey` (part_002, lines 250–252). -/
def getFieldEntryKey (node : FieldNode) : String :=
  match node.aliasName with
  | some a => a
  | none => node.name

/-- The per-target accumulator map (`fieldsByTarget`): target → ordered
multimap from response key to field nodes. -/
abbrev FieldsByTarget := List (Target × List (String × List FieldNode))

/-- The per-key target map (`targetsByKey`): response key → insertion-ordered
set of targets. -/
abbrev TargetsByKey := List (String × List Target)

/-- The immutable part of the collection context (part_002, lines 32–42). -/
structure CollectContext where
  schema : GraphQLSchema
  fragments : List (String × FragmentDef)
  variableValues : VariableValues
  runtimeType : String
  operation : Operation

/-- The mutable part of the collection context: the shared accumulators,
plus the fresh-identity counter standing for JS object allocation. -/
structure CollectState where
  fieldsByTarget : FieldsByTarget
  targetsByKey : TargetsByKey
  newDeferUsages : List Target
  visitedFragmentNames : List String
  nextId : Nat
deriving DecidableEq, Repr

/-- The freshly initialized accumulators of `collectFields`. -/
def initialCollectState : CollectState :=
  { fieldsByTarget := [], targetsByKey := [], newDeferUsages := [],
    visitedFragmentNames := [], nextId := 0 }

/-- The `Kind.FIELD` accumulator updates of `collectFieldsImpl` (part_002,
lines 112–125): add `target` to the key's target set (creating the entry at
the end of the map when absent) and append the node to the `(target, key)`
accumulator (creating maps/entries when absent). -/
def recordField (s : CollectState) (key : String) (target : Target)
    (node : FieldNode) : CollectState :=
  let keyTargets := (mapGet s.targetsByKey key).getD []
  let targetFields := (mapGet s.fieldsByTarget target).getD []
  { s with
    targetsByKey := mapSet s.targetsByKey key (setAdd keyTargets target),
    fieldsByTarget := mapSet s.fieldsByTarget target (accAdd targetFields key node) }

/-- `collectFieldsImpl` (part_002, lines 94–188).  Fuel is spent on every
step; `CollectError.outOfFuel` stands for the non-termination that only a
cyclic fragment table (excluded by the external validator) could cause. -/
def collectFieldsImpl (ctx : CollectContext) :
    Nat → List Selection → Target → Target → CollectState →
    Except CollectError CollectState
  | 0, _, _, _, _ => .error .outOfFuel
  | _ + 1, [], _, _, s => .ok s
  | fuel + 1, selection :: rest, parentTarget, newTarget, s =>
    match selection with
    | .field node =>
      if shouldIncludeNode ctx.variableValues node.directives then
        let key := getFieldEntryKey node
        let target := nullishOr newTarget parentTarget
        collectFieldsImpl ctx fuel rest parentTarget newTarget
          (recordField s key target node)
      else
        collectFieldsImpl ctx fuel rest parentTarget newTarget s
    | .inlineFragment typeCondition directives selectionSet =>
      if shouldIncludeNode ctx.variableValues directives
          && doesFragmentConditionMatch ctx.schema typeCondition ctx.runtimeType then
        match getDeferValues ctx.operation ctx.variableValues directives with
        | .error e => .error e
        | .ok none =>
          match collectFieldsImpl ctx fuel selectionSet parentTarget newTarget s with
          | .error e => .error e
          | .ok s1 => collectFieldsImpl ctx fuel rest parentTarget newTarget s1
        | .ok (some defer) =>
          let target := Target.deferred s.nextId defer.label parentTarget
          let s0 := { s with newDeferUsages := s.newDeferUsages ++ [target],
                             nextId := s.nextId + 1 }
          match collectFieldsImpl ctx fuel selectionSet parentTarget target s0 with
          | .error e => .error e
          | .ok s1 => collectFieldsImpl ctx fuel rest parentTarget newTarget s1
      else
        collectFieldsImpl ctx fuel rest parentTarget newTarget s
    | .fragmentSpread fragName directives =>
      if shouldIncludeNode ctx.variableValues directives then
        match getDeferValues ctx.operation ctx.variableValues directives with
        | .error e => .error e
        | .ok defer =>
          if s.visitedFragmentNames.contains fragName && defer == none then
            collectFieldsImpl ctx fuel rest parentTarget newTarget s
          else
            match mapGet ctx.fragments fragName with
            | none => collectFieldsImpl ctx fuel rest parentTarget newTarget s
            | some fragment =>
              if doesFragmentConditionMatch ctx.schema fragment.typeCondition
                  ctx.runtimeType then
                match defer with
                | none =>
                  let s0 := { s with visitedFragmentNames :=
                                setAdd s.visitedFragmentNames fragName }
                  match collectFieldsImpl ctx fuel fragment.selectionSet
                      parentTarget newTarget s0 with
                  | .error e => .error e
                  | .ok s1 => collectFieldsImpl ctx fuel rest parentTarget newTarget s1
                | some defer =>
                  let target := Target.deferred s.nextId defer.label parentTarget
                  let s0 := { s with newDeferUsages := s.newDeferUsages ++ [target],
                                     nextId := s.nextId + 1 }
                  match collectFieldsImpl ctx fuel fragment.selectionSet
                      parentTarget target s0 with
                  | .error e => .error e
                  | .ok s1 => collectFieldsImpl ctx fuel rest parentTarget newTarget s1
              else
                collectFieldsImpl ctx fuel rest parentTarget newTarget s
      else
        collectFieldsImpl ctx fuel rest parentTarget newTarget s

/-- A field node paired with the target under which it was collected. -/
structure FieldDetails where
  node : FieldNode
  target : Target
deriving DecidableEq, Repr

/-- A grouped-field-set entry: ordered field details plus the masking
target set of the group. -/
structure FieldGroup where
  fields : List FieldDetails
  targets : List Target
deriving DecidableEq, Repr

abbrev GroupedFieldSet := List (String × FieldGroup)

/-- Modelled from the spec: `isSameSet` (`jsutils/isSameSet`, not under
`src/`) — set equality "by membership": equal sizes and every member of
the first present in the second. -/
def isSameSet [BEq α] (a b : List α) : Bool :=
  a.length == b.length && a.all (b.contains ·)

/-- The per-masking-set record of `getTargetSetDetails`: the keys grouped
under the set, and whether delivering them starts a new deferred payload. -/
structure TargetSetDetails where
  keys : List String
  shouldInitiateDefer : Bool
deriving DecidableEq, Repr

abbrev TargetSetDetailsMap := List (List Target × TargetSetDetails)

/-- Modelled from the spec: `getBySet` (`jsutils/getBySet`, not under
`src/`) — look a value up under a key set compared by `isSameSet`. -/
def getBySet [BEq α] : List (List α × β) → List α → Option β
  | [], _ => none
  | (k, v) :: rest, s => if isSameSet k s then some v else getBySet rest s

/-- The map update of `getTargetSetDetails` (part_002, lines 310–320): when
an `isSameSet`-equal key set is present, add the response key to its entry;
otherwise append a fresh entry whose `shouldInitiateDefer` is the given
flag.  (The source does this with `getBySet` followed by a mutation or a
`set`; this function fuses the lookup and the write.) -/
def updateBySet : TargetSetDetailsMap → List Target → String → Bool →
    TargetSetDetailsMap
  | [], maskingTargets, responseKey, flag =>
    [(maskingTargets, { keys := [responseKey], shouldInitiateDefer := flag })]
  | (k, v) :: rest, maskingTargets, responseKey, flag =>
    if isSameSet k maskingTargets then
      (k, { v with keys := setAdd v.keys responseKey }) :: rest
    else
      (k, v) :: updateBySet rest maskingTargets responseKey flag

/-- The inner filter of `getTargetSetDetails` (part_002, lines 296–304):
keep the base sentinel, and keep a deferred target iff none of its
ancestors is also in the key's target set. -/
def maskingTargetListOf (targets : List Target) : List Target :=
  targets.filter fun target =>
    match target with
    | .base => true
    | .deferred i l p =>
      (Target.deferred i l p).ancestorsOf.all fun ancestor =>
        !(targets.contains ancestor)

/-- The loop of `getTargetSetDetails` (part_002, lines 295–321), with the
two accumulators made explicit. -/
def getTargetSetDetailsLoop (parentTargets : List Target) :
    TargetsByKey → List String → TargetSetDetailsMap →
    List String × TargetSetDetailsMap
  | [], parentTargetKeys, targetSetDetailsMap => (parentTargetKeys, targetSetDetailsMap)
  | (responseKey, targets) :: rest, parentTargetKeys, targetSetDetailsMap =>
    let maskingTargetList := maskingTargetListOf targets
    let maskingTargets := jsSetOf maskingTargetList
    if isSameSet maskingTargets parentTargets then
      getTargetSetDetailsLoop parentTargets rest
        (setAdd parentTargetKeys responseKey) targetSetDetailsMap
    else
      getTargetSetDetailsLoop parentTargets rest parentTargetKeys
        (updateBySet targetSetDetailsMap maskingTargets responseKey
          (maskingTargetList.any fun deferUsage => !(parentTargets.contains deferUsage)))

/-- `getTargetSetDetails` (part_002, lines 292–326). -/
def getTargetSetDetails (targetsByKey : TargetsByKey) (parentTargets : List Target) :
    List String × TargetSetDetailsMap :=
  getTargetSetDetailsLoop parentTargets targetsByKey [] []

/-- The inner loop of `getOrderedGroupedFieldSet` (part_002, lines
345–353): for each target of the key's target set, read the node list
from that target's accumulator, delete it there (the source's "optional
minor optimization"), and append the nodes paired with their target.  A
JS `undefined` lookup would throw; that is `CollectError.missingEntry`. -/
def collectKeyFields (key : String) :
    List Target → List FieldDetails → FieldsByTarget →
    Except CollectError (List FieldDetails × FieldsByTarget)
  | [], acc, fieldsByTarget => .ok (acc, fieldsByTarget)
  | target :: ts, acc, fieldsByTarget =>
    match mapGet fieldsByTarget target with
    | none => .error .missingEntry
    | some fieldsForTarget =>
      match mapGet fieldsForTarget key with
      | none => .error .missingEntry
      | some nodes =>
        collectKeyFields key ts
          (acc ++ nodes.map fun node => { node := node, target := target })
          (mapSet fieldsByTarget target (mapDelete fieldsForTarget key))

/-- The outer loop of `getOrderedGroupedFieldSet` (part_002, lines
337–355) over the entries of the first masking target's accumulator
(snapshotted: the loop only ever deletes the entry it is visiting, so live
JS-`Map` iteration visits the same entries). -/
def orderedGroupLoop (keys : List String) (maskingTargets : List Target)
    (targetsByKey : TargetsByKey) :
    List (String × List FieldNode) → GroupedFieldSet → FieldsByTarget →
    Except CollectError (GroupedFieldSet × FieldsByTarget)
  | [], groupedFieldSet, fieldsByTarget => .ok (groupedFieldSet, fieldsByTarget)
  | (key, _) :: restEntries, groupedFieldSet, fieldsByTarget =>
    if keys.contains key then
      match mapGet targetsByKey key with
      | none => .error .missingEntry
      | some keyTargets =>
        match collectKeyFields key keyTargets [] fieldsByTarget with
        | .error e => .error e
        | .ok (newFields, fieldsByTarget1) =>
          let fieldGroup := (mapGet groupedFieldSet key).getD
            { fields := [], targets := maskingTargets }
          orderedGroupLoop keys maskingTargets targetsByKey restEntries
            (mapSet groupedFieldSet key
              { fieldGroup with fields := fieldGroup.fields ++ newFields })
            fieldsByTarget1
    else
      orderedGroupLoop keys maskingTargets targetsByKey restEntries
        groupedFieldSet fieldsByTarget

/-- JS `set.values().next().value`: the first element in insertion order,
`undefined` (the base sentinel) for an empty set. -/
def firstTargetOf : List Target → Target
  | [] => Target.base
  | t :: _ => t

/-- `getOrderedGroupedFieldSet` (part_002, lines 327–357).  The first
target of an empty masking set is JS `undefined`, i.e. the base sentinel.
The threaded `FieldsByTarget` reflects the source's in-place deletions. -/
def getOrderedGroupedFieldSet (keys : List String) (maskingTargets : List Target)
    (targetsByKey : TargetsByKey) (fieldsByTarget : FieldsByTarget) :
    Except CollectError (GroupedFieldSet × FieldsByTarget) :=
  let firstTarget := firstTargetOf maskingTargets
  match mapGet fieldsByTarget firstTarget with
  | none => .error .missingEntry
  | some firstFields =>
    orderedGroupLoop keys maskingTargets targetsByKey firstFields [] fieldsByTarget

/-- One entry of `newGroupedFieldSetDetails`. -/
structure GroupedFieldSetDetails where
  groupedFieldSet : GroupedFieldSet
  shouldInitiateDefer : Bool
deriving DecidableEq, Repr

/-- The loop of `buildGroupedFieldSets` over `targetSetDetailsMap`
(part_002, lines 272–286), threading the mutated accumulators. -/
def newGroupedFieldSetLoop (targetsByKey : TargetsByKey) :
    TargetSetDetailsMap → List (List Target × GroupedFieldSetDetails) →
    FieldsByTarget →
    Except CollectError (List (List Target × GroupedFieldSetDetails) × FieldsByTarget)
  | [], acc, fieldsByTarget => .ok (acc, fieldsByTarget)
  | (maskingTargets, targetSetDetails) :: rest, acc, fieldsByTarget =>
    match getOrderedGroupedFieldSet targetSetDetails.keys maskingTargets
        targetsByKey fieldsByTarget with
    | .error e => .error e
    | .ok (newGroupedFieldSet, fieldsByTarget1) =>
      newGroupedFieldSetLoop targetsByKey rest
        (acc ++ [(maskingTargets,
          { groupedFieldSet := newGroupedFieldSet,
            shouldInitiateDefer := targetSetDetails.shouldInitiateDefer })])
        fieldsByTarget1

/-- The result of `buildGroupedFieldSets`. -/
structure BuildResult where
  groupedFieldSet : GroupedFieldSet
  newGroupedFieldSetDetails : List (List Target × GroupedFieldSetDetails)
deriving DecidableEq, Repr

/-- `buildGroupedFieldSets` (part_002, lines 253–291). -/
def buildGroupedFieldSets (targetsByKey : TargetsByKey)
    (fieldsByTarget : FieldsByTarget)
    (parentTargets : List Target := NON_DEFERRED_TARGET_SET) :
    Except CollectError BuildResult :=
  let details := getTargetSetDetails targetsByKey parentTargets
  let parentTargetKeys := details.1
  let targetSetDetailsMap := details.2
  let base : Except CollectError (GroupedFieldSet × FieldsByTarget) :=
    if parentTargetKeys.length > 0 then
      getOrderedGroupedFieldSet parentTargetKeys parentTargets
        targetsByKey fieldsByTarget
    else
      .ok ([], fieldsByTarget)
  match base with
  | .error e => .error e
  | .ok (groupedFieldSet, fieldsByTarget1) =>
    match newGroupedFieldSetLoop targetsByKey targetSetDetailsMap [] fieldsByTarget1 with
    | .error e => .error e
    | .ok (newGroupedFieldSetDetails, _) =>
      .ok { groupedFieldSet := groupedFieldSet,
            newGroupedFieldSetDetails := newGroupedFieldSetDetails }

/-- The result of `collectFields`. -/
structure CollectResult where
  groupedFieldSet : GroupedFieldSet
  newGroupedFieldSetDetails : List (List Target × GroupedFieldSetDetails)
  newDeferUsages : List Target
deriving DecidableEq, Repr

/-- `collectFields` (part_002, lines 25–48): run the collector on the
operation's root selection set from fresh accumulators (both the parent
target and the target override start as the `undefined`/base sentinel),
then build the grouped field sets. -/
def collectFields (schema : GraphQLSchema) (fragments : List (String × FragmentDef))
    (variableValues : VariableValues) (runtimeType : String)
    (operation : Operation) (fuel : Nat) : Except CollectError CollectResult :=
  let ctx : CollectContext :=
    { schema := schema, fragments := fragments, variableValues := variableValues,
      runtimeType := runtimeType, operation := operation }
  match collectFieldsImpl ctx fuel operation.selectionSet .base .base
      initialCollectState with
  | .error e => .error e
  | .ok s =>
    match buildGroupedFieldSets s.targetsByKey s.fieldsByTarget with
    | .error e => .error e
    | .ok b =>
      .ok { groupedFieldSet := b.groupedFieldSet,
            newGroupedFieldSetDetails := b.newGroupedFieldSetDetails,
            newDeferUsages := s.newDeferUsages }

/-- Decidable equality of `Except` results, used to settle concrete runs
by `decide`. -/
instance {ε α : Type} [DecidableEq ε] [DecidableEq α] : DecidableEq (Except ε α) := fun x y =>
  match x, y with
  | .error a, .error b =>
    if h : a = b then .isTrue (by rw [h]) else .isFalse (by simp [h])
  | .ok a, .ok b =>
    if h : a = b then .isTrue (by rw [h]) else .isFalse (by simp [h])
  | .error _, .ok _ => .isFalse (by simp)
  | .ok _, .error _ => .isFalse (by simp)

/-- A one-object-type schema for the concrete scenarios. -/
def schemaT : GraphQLSchema := ⟨["T"], [], []⟩

/-- `@defer` with no arguments. -/
def deferDirective : DirectiveNode := ⟨"defer", []⟩

/-- The C3 scenario operation: `{ a b ... @defer { b c } }`. -/
def c3Operation : Operation :=
  { operation := .query,
    selectionSet :=
      [.field ⟨none, "a", []⟩, .field ⟨none, "b", []⟩,
       .inlineFragment none [deferDirective]
         [.field ⟨none, "b", []⟩, .field ⟨none, "c", []⟩]] }

/-- The C3 scenario run. -/
def c3Run : Except CollectError CollectResult :=
  collectFields schemaT [] [] "T" c3Operation 20

/-- The context of the C3 scenario run (as `collectFields` builds it). -/
def c3Context : CollectContext :=
  { schema := schemaT, fragments := [], variableValues := [],
    runtimeType := "T", operation := c3Operation }

/-- The collection state of the C3 scenario before grouping. -/
def c3State : Except CollectError CollectState :=
  collectFieldsImpl c3Context 20 c3Operation.selectionSet .base .base
    initialCollectState

/-- The fragment `F = fragment on ? { x }` used by the dedup scenarios. -/
def fragmentF : FragmentDef := ⟨none, [.field ⟨none, "x", []⟩]⟩

/-- The C5 scenario operation: `{ ...F a ...F }`. -/
def c5Operation : Operation :=
  { operation := .query,
    selectionSet := [.fragmentSpread "F" [], .field ⟨none, "a", []⟩,
                     .fragmentSpread "F" []] }

/-- The C5 scenario context. -/
def c5Context : CollectContext :=
  { schema := schemaT, fragments := [("F", fragmentF)], variableValues := [],
    runtimeType := "T", operation := c5Operation }

/-- The C5 scenario run. -/
def c5Run : Except CollectError CollectResult :=
  collectFields schemaT [("F", fragmentF)] [] "T" c5Operation 20

/-- The C9 scenario operation: `{ ...F ... @defer { ...F } }`. -/
def c9Operation : Operation :=
  { operation := .query,
    selectionSet := [.fragmentSpread "F" [],
      .inlineFragment none [deferDirective] [.fragmentSpread "F" []]] }

/-- The C9 scenario context. -/
def c9Context : CollectContext :=
  { schema := schemaT, fragments := [("F", fragmentF)], variableValues := [],
    runtimeType := "T", operation := c9Operation }

/-- The C9 scenario collection state. -/
def c9State : Except CollectError CollectState :=
  collectFieldsImpl c9Context 20 c9Operation.selectionSet .base .base
    initialCollectState

/-- Propositional set equality by membership (what the spec calls "set
equality, not reference equality — compare by membership"). -/
def sameMembers (a b : List α) : Prop := ∀ x, x ∈ a ↔ x ∈ b

/-- The invariant of the `getTargetSetDetails` loop, after the entries of
`done` have been processed against parent target set `pts`:
`ptk`/`m` are the accumulated `parentTargetKeys`/`targetSetDetailsMap`. -/
structure GTSDInv (pts : List Target) (done : TargetsByKey)
    (ptk : List String) (m : TargetSetDetailsMap) : Prop where
  ptkNodup : ptk.Nodup
  memPtk : ∀ key, key ∈ ptk ↔ ∃ ts, (key, ts) ∈ done ∧
      sameMembers (maskingTargetListOf ts) pts
  setsNodup : ∀ e ∈ m, e.1.Nodup
  pairwiseDistinct : m.Pairwise fun e1 e2 => ¬ sameMembers e1.1 e2.1
  keysSound : ∀ M d key, (M, d) ∈ m → key ∈ d.keys →
      ∃ ts, (key, ts) ∈ done ∧ sameMembers M (maskingTargetListOf ts) ∧
        ¬ sameMembers (maskingTargetListOf ts) pts
  keysComplete : ∀ key ts, (key, ts) ∈ done →
      ¬ sameMembers (maskingTargetListOf ts) pts →
      ∃ M d, (M, d) ∈ m ∧ key ∈ d.keys ∧
        sameMembers M (maskingTargetListOf ts)
  flagSpec : ∀ M d, (M, d) ∈ m → (d.shouldInitiateDefer = true ↔ ∃ t ∈ M, t ∉ pts)
  keysNonempty : ∀ M d, (M, d) ∈ m → d.keys ≠ []

/-- The node list accumulated for `(target, key)`, read through both maps. -/
def nodesAt (fieldsByTarget : FieldsByTarget) (target : Target) (key : String) :
    Option (List FieldNode) :=
  (mapGet fieldsByTarget target).bind fun tf => mapGet tf key

/-- The concatenation, over the given targets, of the nodes accumulated for
the key under each target, each node paired with its owning target — the
shape the amended C4 asserts the source's group field lists to have. -/
def keyFieldsFrom (fieldsByTarget : FieldsByTarget) (key : String)
    (targets : List Target) : List FieldDetails :=
  targets.flatMap fun target =>
    ((nodesAt fieldsByTarget target key).getD []).map fun node =>
      { node := node, target := target }

/-- The C3-scenario accumulators, as standalone inputs for the amended C4. -/
def c4TargetsByKey : TargetsByKey :=
  [("a", [Target.base]),
   ("b", [Target.base, Target.deferred 0 none Target.base]),
   ("c", [Target.deferred 0 none Target.base])]

/-- The C3-scenario per-target field accumulator. -/
def c4FieldsByTarget : FieldsByTarget :=
  [(Target.base, [("a", [⟨none, "a", []⟩]), ("b", [⟨none, "b", []⟩])]),
   (Target.deferred 0 none Target.base,
     [("b", [⟨none, "b", []⟩]), ("c", [⟨none, "c", []⟩])])]

/-- The synchronization invariant the collection phase maintains between
`targetsByKey` and `fieldsByTarget` (plus the well-formedness facts that
come with JS `Map`/`Set` semantics, and the fact that inside one
`collectFields` pass every deferred target is rooted directly at the base
sentinel, since the recursion never changes `parentTarget`). -/
structure SyncInv (s : CollectState) : Prop where
  tbkKeysNodup : (s.targetsByKey.map Prod.fst).Nodup
  tbkSetsNodup : ∀ e ∈ s.targetsByKey, e.2.Nodup
  tbkNonempty : ∀ e ∈ s.targetsByKey, e.2 ≠ []
  fbtKeysNodup : (s.fieldsByTarget.map Prod.fst).Nodup
  fbtMapsNodup : ∀ e ∈ s.fieldsByTarget, (e.2.map Prod.fst).Nodup
  sync1 : ∀ key targets, mapGet s.targetsByKey key = some targets →
      ∀ t ∈ targets, ∃ nodes, nodesAt s.fieldsByTarget t key = some nodes ∧ nodes ≠ []
  sync2 : ∀ t tf key nodes, mapGet s.fieldsByTarget t = some tf →
      mapGet tf key = some nodes →
      ∃ targets, mapGet s.targetsByKey key = some targets ∧ t ∈ targets
  baseScoped : ∀ e ∈ s.targetsByKey, ∀ t ∈ e.2,
      t = Target.base ∨ ∃ i l, t = Target.deferred i l Target.base

/-- The collection state of the C3 scenario, written out. -/
def c3FinalState : CollectState :=
  { fieldsByTarget :=
      [(Target.base,
        [("a", [⟨none, "a", []⟩]), ("b", [⟨none, "b", []⟩])]),
       (Target.deferred 0 none Target.base,
        [("b", [⟨none, "b", []⟩]), ("c", [⟨none, "c", []⟩])])],
    targetsByKey :=
      [("a", [Target.base]),
       ("b", [Target.base, Target.deferred 0 none Target.base]),
       ("c", [Target.deferred 0 none Target.base])],
    newDeferUsages := [Target.deferred 0 none Target.base],
    visitedFragmentNames := [],
    nextId := 1 }

/-- C7: `shouldIncludeNode` returns `false` exactly when the `@skip`
`if`-argument coerces to `true` or, failing that, the `@include`
`if`-argument is present and coerces to `false`; otherwise it returns
`true`.  In particular a selection carrying both `@skip(if: true)` and
`@include(if: true)` is excluded. -/
theorem C7_skip_include_precedence :
    (∀ (variableValues : VariableValues) (directives : List DirectiveNode),
      shouldIncludeNode variableValues directives = false ↔
        ((getDirectiveValues variableValues directives "skip").bind (mapGet · "if")
            = some (JsValue.bool true) ∨
         (¬ (getDirectiveValues variableValues directives "skip").bind (mapGet · "if")
            = some (JsValue.bool true) ∧
          (getDirectiveValues variableValues directives "include").bind (mapGet · "if")
            = some (JsValue.bool false)))) ∧
    shouldIncludeNode []
      [⟨"skip", [("if", ArgValue.value (JsValue.bool true))]⟩,
       ⟨"include", [("if", ArgValue.value (JsValue.bool true))]⟩] = false := by
  constructor
  · intro variableValues directives
    unfold shouldIncludeNode
    by_cases h1 : (getDirectiveValues variableValues directives "skip").bind
        (mapGet · "if") = some (JsValue.bool true)
    · simp [h1]
    · by_cases h2 : (getDirectiveValues variableValues directives "include").bind
          (mapGet · "if") = some (JsValue.bool false)
      · simp [h1, h2]
      · simp [h1, h2]
  · decide

/-- C8: `doesFragmentConditionMatch` holds iff the fragment has no type
condition, or the condition resolves to the candidate type itself, or it
resolves to an abstract type of which the candidate is a subtype; in every
other case — including when the condition fails to resolve — it returns
`false` (a total function: no error is raised). -/
theorem C8_fragment_condition_match :
    (∀ (schema : GraphQLSchema) (typeCondition : Option String) (type : String),
      doesFragmentConditionMatch schema typeCondition type = true ↔
        (typeCondition = none ∨
         ∃ n, typeCondition = some n ∧
           (typeFromAST schema n = some type ∨
            ∃ c, typeFromAST schema n = some c ∧ isAbstractType schema c = true ∧
              isSubType schema c type = true))) ∧
    (∀ (schema : GraphQLSchema) (n type : String),
      typeFromAST schema n = none →
        doesFragmentConditionMatch schema (some n) type = false) := by
  constructor
  · intro schema typeCondition type
    cases typeCondition with
    | none => simp [doesFragmentConditionMatch]
    | some n =>
      simp only [doesFragmentConditionMatch]
      cases h : typeFromAST schema n with
      | none => simp [h]
      | some c =>
        by_cases hc : c = type
        · subst hc
          simp [h]
        · by_cases ha : isAbstractType schema c = true
          · simp [h, hc, ha]
          · simp [h, hc, ha]
  · intro schema n type h
    simp [doesFragmentConditionMatch, h]

/-- C6: `getDeferValues` yields no defer record when `@defer` is absent or
its `if` argument coerces to `false`; with an applicable `@defer` it fails
with an `invariant` violation on subscription operations, and on any other
operation it returns a record whose label is the directive's `label`
exactly when that label coerced to a string. -/
theorem C6_getDeferValues_cases :
    (∀ (operation : Operation) (variableValues : VariableValues)
       (directives : List DirectiveNode),
      getDirectiveValues variableValues directives "defer" = none →
        getDeferValues operation variableValues directives = .ok none) ∧
    (∀ (operation : Operation) (variableValues : VariableValues)
       (directives : List DirectiveNode) (args : List (String × JsValue)),
      getDirectiveValues variableValues directives "defer" = some args →
      mapGet args "if" = some (JsValue.bool false) →
        getDeferValues operation variableValues directives = .ok none) ∧
    (∀ (operation : Operation) (variableValues : VariableValues)
       (directives : List DirectiveNode) (args : List (String × JsValue)),
      getDirectiveValues variableValues directives "defer" = some args →
      ¬ mapGet args "if" = some (JsValue.bool false) →
      operation.operation = OperationTypeNode.subscription →
        ∃ msg, getDeferValues operation variableValues directives
          = .error (.invariantViolation msg)) ∧
    (∀ (operation : Operation) (variableValues : VariableValues)
       (directives : List DirectiveNode) (args : List (String × JsValue)),
      getDirectiveValues variableValues directives "defer" = some args →
      ¬ mapGet args "if" = some (JsValue.bool false) →
      ¬ operation.operation = OperationTypeNode.subscription →
        ∃ deferValues,
          getDeferValues operation variableValues directives = .ok (some deferValues) ∧
          ∀ s, deferValues.label = some s ↔ mapGet args "label" = some (JsValue.str s)) := by
  refine ⟨?_, ?_, ?_, ?_⟩
  · intro operation variableValues directives h
    simp [getDeferValues, h]
  · intro operation variableValues directives args h hif
    simp [getDeferValues, h, hif]
  · intro operation variableValues directives args h hif hsub
    refine ⟨"`@defer` directive not supported on subscription operations. Disable `@defer` by setting the `if` argument to `false`.", ?_⟩
    simp [getDeferValues, h, hif, hsub]
  · intro operation variableValues directives args h hif hsub
    refine ⟨{ label := match mapGet args "label" with
                       | some (JsValue.str s) => some s
                       | _ => none }, ?_, ?_⟩
    · simp [getDeferValues, h, hif, hsub]
    · intro s
      cases hl : mapGet args "label" with
      | none => simp [hl]
      | some v =>
        cases v with
        | bool b => simp [hl]
        | str t => simp [hl]
        | nullV => simp [hl]

/-- Closed witness for C6: a `@defer` with no `if` argument on a
subscription operation trips the `invariant`. -/
theorem C6_getDeferValues_cases_witness :
    ∃ msg, getDeferValues { operation := OperationTypeNode.subscription, selectionSet := [] }
        [] [⟨"defer", []⟩] = .error (.invariantViolation msg) :=
  C6_getDeferValues_cases.2.2.1
    { operation := OperationTypeNode.subscription, selectionSet := [] }
    [] [⟨"defer", []⟩] [] (by decide) (by decide) (by decide)

/-- Closed witness for C8: an unresolvable type condition yields `false`. -/
theorem C8_fragment_condition_match_witness :
    typeFromAST ⟨[], [], []⟩ "X" = none ∧
    doesFragmentConditionMatch ⟨[], [], []⟩ (some "X") "T" = false :=
  ⟨by decide, C8_fragment_condition_match.2 ⟨[], [], []⟩ "X" "T" (by decide)⟩

/-- C3: on `{ a b ... @defer { b c } }` over a type with fields a, b, c,
the base grouped field set has exactly the keys `a` and `b` in that order
(`c` absent), and there is exactly one deferred entry, holding only `c`,
with `shouldInitiateDefer = true` (`b` absent from it). -/
theorem C3_defer_scenario :
    c3Run.map (fun r => r.groupedFieldSet.map Prod.fst) = .ok ["a", "b"] ∧
    c3Run.map (fun r => (r.groupedFieldSet.map Prod.fst).contains "c") = .ok false ∧
    c3Run.map (fun r => r.newGroupedFieldSetDetails.length) = .ok 1 ∧
    c3Run.map (fun r => r.newGroupedFieldSetDetails.map fun e =>
      e.2.groupedFieldSet.map Prod.fst) = .ok [["c"]] ∧
    c3Run.map (fun r => r.newGroupedFieldSetDetails.map fun e =>
      e.2.shouldInitiateDefer) = .ok [true] ∧
    c3Run.map (fun r => r.newGroupedFieldSetDetails.map fun e =>
      (e.2.groupedFieldSet.map Prod.fst).contains "b") = .ok [false] := by
  refine ⟨?_, ?_, ?_, ?_, ?_, ?_⟩ <;> decide

/-- C4 counterexample: in the C3 scenario the per-key target set of `b` is
`{base, T}` whose masking target set is `{base}` only, yet `b`'s group in
the base grouped field set also contains the node collected under the
deferred target `T` — the group concatenates over *all* targets of the
key's per-key target set, not only over the masking set. -/
theorem C4_counterexample :
    c3State.map (fun s => mapGet s.targetsByKey "b")
      = .ok (some [Target.base, Target.deferred 0 none Target.base]) ∧
    maskingTargetListOf [Target.base, Target.deferred 0 none Target.base]
      = [Target.base] ∧
    c3Run.map (fun r => (mapGet r.groupedFieldSet "b").map fun g => g.targets)
      = .ok (some [Target.base]) ∧
    c3Run.map (fun r => (mapGet r.groupedFieldSet "b").map fun g =>
        g.fields.map (·.target))
      = .ok (some [Target.base, Target.deferred 0 none Target.base]) ∧
    c3Run.map (fun r => (mapGet r.groupedFieldSet "b").map fun g =>
        g.fields.any fun d => !(g.targets.contains d.target))
      = .ok (some true) := by
  refine ⟨?_, ?_, ?_, ?_, ?_⟩ <;> decide

/-- C5: a fragment spread without an active `@defer` recurses only on the
first non-deferred encounter of the name, marking it visited (first
conjunct); with an active `@defer` the spread recurses under a freshly
synthesized target even when the name is already visited (second
conjunct); consequently a fragment spread twice without defer contributes
its fields exactly once, at the position of the first spread (third
conjunct). -/
theorem C5_fragment_dedup :
    (∀ (ctx : CollectContext) (fuel : Nat) (fragName : String)
       (directives : List DirectiveNode) (fragment : FragmentDef)
       (rest : List Selection) (parentTarget newTarget : Target) (s : CollectState),
      shouldIncludeNode ctx.variableValues directives = true →
      getDeferValues ctx.operation ctx.variableValues directives = .ok none →
      s.visitedFragmentNames.contains fragName = false →
      mapGet ctx.fragments fragName = some fragment →
      doesFragmentConditionMatch ctx.schema fragment.typeCondition ctx.runtimeType = true →
      collectFieldsImpl ctx (fuel + 1) (.fragmentSpread fragName directives :: rest)
          parentTarget newTarget s =
        match collectFieldsImpl ctx fuel fragment.selectionSet parentTarget newTarget
            { s with visitedFragmentNames := setAdd s.visitedFragmentNames fragName } with
        | .error e => .error e
        | .ok s1 => collectFieldsImpl ctx fuel rest parentTarget newTarget s1) ∧
    (∀ (ctx : CollectContext) (fuel : Nat) (fragName : String)
       (directives : List DirectiveNode) (fragment : FragmentDef)
       (deferValues : DeferValues)
       (rest : List Selection) (parentTarget newTarget : Target) (s : CollectState),
      shouldIncludeNode ctx.variableValues directives = true →
      getDeferValues ctx.operation ctx.variableValues directives = .ok (some deferValues) →
      s.visitedFragmentNames.contains fragName = true →
      mapGet ctx.fragments fragName = some fragment →
      doesFragmentConditionMatch ctx.schema fragment.typeCondition ctx.runtimeType = true →
      collectFieldsImpl ctx (fuel + 1) (.fragmentSpread fragName directives :: rest)
          parentTarget newTarget s =
        match collectFieldsImpl ctx fuel fragment.selectionSet parentTarget
            (Target.deferred s.nextId deferValues.label parentTarget)
            { s with
                newDeferUsages :=
                  s.newDeferUsages ++ [Target.deferred s.nextId deferValues.label parentTarget]
                nextId := s.nextId + 1 } with
        | .error e => .error e
        | .ok s1 => collectFieldsImpl ctx fuel rest parentTarget newTarget s1) ∧
    c5Run.map (fun r => r.groupedFieldSet.map Prod.fst) = .ok ["x", "a"] ∧
    c5Run.map (fun r => (mapGet r.groupedFieldSet "x").map fun g => g.fields.length)
      = .ok (some 1) := by
  refine ⟨?_, ?_, by decide, by decide⟩
  · intro ctx fuel fragName directives fragment rest parentTarget newTarget s
      hinc hdef hvis hfrag hmatch
    simp only [collectFieldsImpl, hinc, hdef, hvis, hfrag, hmatch]
    simp
  · intro ctx fuel fragName directives fragment deferValues rest parentTarget newTarget s
      hinc hdef hvis hfrag hmatch
    simp only [collectFieldsImpl, hinc, hdef, hvis, hfrag, hmatch]
    simp

/-- Closed witness for C5: the first conjunct applied to a single
non-deferred spread of `F` from the initial state. -/
theorem C5_fragment_dedup_witness :
    collectFieldsImpl c5Context 6 [.fragmentSpread "F" []] .base .base
        initialCollectState =
      match collectFieldsImpl c5Context 5 fragmentF.selectionSet .base .base
          { initialCollectState with
            visitedFragmentNames := setAdd initialCollectState.visitedFragmentNames "F" } with
      | .error e => .error e
      | .ok s1 => collectFieldsImpl c5Context 5 [] .base .base s1 :=
  C5_fragment_dedup.1 c5Context 5 "F" [] fragmentF [] .base .base
    initialCollectState (by decide) (by decide) (by decide) rfl (by decide)

/-- C9: once a fragment name is in the shared visited set, a later spread
of it without an active `@defer` is skipped no matter which target
override is in effect (first conjunct, for every `newTarget`); in the
scenario `{ ...F ... @defer { ...F } }` the fields of `F` are therefore
recorded only under the base target: the deferred target is created and
reported, but no field entry exists for it (remaining conjuncts). -/
theorem C9_visited_set_shared_across_targets :
    (∀ (ctx : CollectContext) (fuel : Nat) (fragName : String)
       (directives : List DirectiveNode) (rest : List Selection)
       (parentTarget newTarget : Target) (s : CollectState),
      shouldIncludeNode ctx.variableValues directives = true →
      getDeferValues ctx.operation ctx.variableValues directives = .ok none →
      s.visitedFragmentNames.contains fragName = true →
      collectFieldsImpl ctx (fuel + 1) (.fragmentSpread fragName directives :: rest)
          parentTarget newTarget s
        = collectFieldsImpl ctx fuel rest parentTarget newTarget s) ∧
    c9State.map (fun s => s.targetsByKey) = .ok [("x", [Target.base])] ∧
    c9State.map (fun s => s.fieldsByTarget.map Prod.fst) = .ok [Target.base] ∧
    c9State.map (fun s => s.newDeferUsages)
      = .ok [Target.deferred 0 none Target.base] := by
  refine ⟨?_, by decide, by decide, by decide⟩
  intro ctx fuel fragName directives rest parentTarget newTarget s hinc hdef hvis
  simp only [collectFieldsImpl, hinc, hdef, hvis]
  simp

/-- Closed witness for C9: a repeated non-deferred spread of `F` is a
no-op even under a deferred target override. -/
theorem C9_visited_set_shared_across_targets_witness :
    collectFieldsImpl c9Context 4 [.fragmentSpread "F" []] .base
        (Target.deferred 0 none .base)
        { fieldsByTarget := [], targetsByKey := [], newDeferUsages := [],
          visitedFragmentNames := ["F"], nextId := 1 }
      = collectFieldsImpl c9Context 3 [] .base (Target.deferred 0 none .base)
        { fieldsByTarget := [], targetsByKey := [], newDeferUsages := [],
          visitedFragmentNames := ["F"], nextId := 1 } :=
  C9_visited_set_shared_across_targets.1 c9Context 3 "F" [] [] .base
    (Target.deferred 0 none .base)
    { fieldsByTarget := [], targetsByKey := [], newDeferUsages := [],
      visitedFragmentNames := ["F"], nextId := 1 }
    (by decide) (by decide) (by decide)

theorem sameMembers_refl (a : List α) : sameMembers a a := fun _ => Iff.rfl

theorem sameMembers_symm {a b : List α} (h : sameMembers a b) : sameMembers b a :=
  fun x => (h x).symm

theorem sameMembers_trans {a b c : List α} (h1 : sameMembers a b)
    (h2 : sameMembers b c) : sameMembers a c :=
  fun x => (h1 x).trans (h2 x)

theorem mem_setAdd [DecidableEq α] {s : List α} {a x : α} :
    x ∈ setAdd s a ↔ x ∈ s ∨ x = a := by
  unfold setAdd
  split
  · rename_i h
    rw [List.elem_iff] at h
    constructor
    · exact Or.inl
    · rintro (hx | rfl)
      · exact hx
      · exact h
  · simp

theorem nodup_setAdd [DecidableEq α] {s : List α} (h : s.Nodup) (a : α) :
    (setAdd s a).Nodup := by
  unfold setAdd
  split
  · exact h
  · rename_i hc
    rw [List.elem_iff] at hc
    simpa [List.nodup_append] using ⟨h, hc⟩

theorem setAdd_ne_nil [DecidableEq α] (s : List α) (a : α) : setAdd s a ≠ [] := by
  unfold setAdd
  split
  · rename_i h
    intro hc
    rw [hc] at h
    simp at h
  · simp

theorem mem_foldl_setAdd [DecidableEq α] (l : List α) :
    ∀ (acc : List α) (x : α), x ∈ l.foldl setAdd acc ↔ x ∈ acc ∨ x ∈ l := by
  induction l with
  | nil => simp
  | cons a t ih =>
    intro acc x
    rw [List.foldl_cons, ih, mem_setAdd, List.mem_cons]
    tauto

theorem mem_jsSetOf [DecidableEq α] {l : List α} {x : α} :
    x ∈ jsSetOf l ↔ x ∈ l := by
  unfold jsSetOf
  rw [mem_foldl_setAdd]
  simp

theorem nodup_foldl_setAdd [DecidableEq α] (l : List α) :
    ∀ (acc : List α), acc.Nodup → (l.foldl setAdd acc).Nodup := by
  induction l with
  | nil => simp
  | cons a t ih =>
    intro acc h
    exact ih _ (nodup_setAdd h a)

theorem nodup_jsSetOf [DecidableEq α] (l : List α) : (jsSetOf l).Nodup :=
  nodup_foldl_setAdd l [] List.nodup_nil

theorem sameMembers_jsSetOf [DecidableEq α] (l : List α) :
    sameMembers (jsSetOf l) l := fun _ => mem_jsSetOf

theorem isSameSet_true_of_sameMembers [DecidableEq α] {a b : List α}
    (ha : a.Nodup) (hb : b.Nodup) (h : sameMembers a b) :
    isSameSet a b = true := by
  have hfin : a.toFinset = b.toFinset := by
    ext x
    simpa [List.mem_toFinset] using h x
  unfold isSameSet
  rw [Bool.and_eq_true, beq_iff_eq, List.all_eq_true]
  refine ⟨?_, ?_⟩
  · rw [← List.toFinset_card_of_nodup ha, ← List.toFinset_card_of_nodup hb, hfin]
  · intro x hx
    rw [List.elem_iff]
    exact (h x).mp hx

theorem sameMembers_of_isSameSet_true [DecidableEq α] {a b : List α}
    (ha : a.Nodup) (h : isSameSet a b = true) : sameMembers a b := by
  unfold isSameSet at h
  rw [Bool.and_eq_true, beq_iff_eq, List.all_eq_true] at h
  obtain ⟨hlen, hsub⟩ := h
  have hsub' : a.toFinset ⊆ b.toFinset := by
    intro x hx
    rw [List.mem_toFinset] at hx ⊢
    have := hsub x hx
    rwa [List.elem_iff] at this
  have hcard : b.toFinset.card ≤ a.toFinset.card := by
    calc b.toFinset.card ≤ b.length := List.toFinset_card_le b
      _ = a.length := hlen.symm
      _ = a.toFinset.card := (List.toFinset_card_of_nodup ha).symm
  have hfin : a.toFinset = b.toFinset := Finset.eq_of_subset_of_card_le hsub' hcard
  intro x
  rw [← List.mem_toFinset, ← List.mem_toFinset (l := b), hfin]

theorem not_sameMembers_of_isSameSet_false [DecidableEq α] {a b : List α}
    (ha : a.Nodup) (hb : b.Nodup) (h : isSameSet a b = false) :
    ¬ sameMembers a b := by
  intro hs
  have := isSameSet_true_of_sameMembers ha hb hs
  rw [h] at this
  exact Bool.false_ne_true this

theorem mem_maskingTargetListOf {targets : List Target} {t : Target} :
    t ∈ maskingTargetListOf targets ↔
      t ∈ targets ∧ ∀ a ∈ t.ancestorsOf, a ∉ targets := by
  unfold maskingTargetListOf
  rw [List.mem_filter]
  apply and_congr_right
  intro _
  cases t with
  | base => simp [Target.ancestorsOf]
  | deferred i l p => simp [List.elem_iff]

theorem nodup_maskingTargetListOf {targets : List Target} (h : targets.Nodup) :
    (maskingTargetListOf targets).Nodup :=
  h.filter _

theorem assoc_functional {α β : Type} {l : List (α × β)}
    (h : (l.map Prod.fst).Nodup) {k : α} {v1 v2 : β}
    (h1 : (k, v1) ∈ l) (h2 : (k, v2) ∈ l) : v1 = v2 := by
  induction l with
  | nil => cases h1
  | cons e rest ih =>
    rw [List.map_cons, List.nodup_cons] at h
    rcases List.mem_cons.mp h1 with rfl | h1'
    · rcases List.mem_cons.mp h2 with he | h2'
      · exact (congrArg Prod.snd he).symm
      · exact absurd (List.mem_map_of_mem Prod.fst h2') (by simpa using h.1)
    · rcases List.mem_cons.mp h2 with rfl | h2'
      · exact absurd (List.mem_map_of_mem Prod.fst h1') (by simpa using h.1)
      · exact ih h.2 h1' h2'

theorem pairwise_entry_unique {m : TargetSetDetailsMap}
    (hp : m.Pairwise fun e1 e2 => ¬ sameMembers e1.1 e2.1)
    {e1 e2 : List Target × TargetSetDetails}
    (h1 : e1 ∈ m) (h2 : e2 ∈ m) (hs : sameMembers e1.1 e2.1) : e1 = e2 := by
  induction m with
  | nil => cases h1
  | cons e rest ih =>
    rw [List.pairwise_cons] at hp
    rcases List.mem_cons.mp h1 with rfl | h1'
    · rcases List.mem_cons.mp h2 with rfl | h2'
      · rfl
      · exact absurd hs (hp.1 e2 h2')
    · rcases List.mem_cons.mp h2 with rfl | h2'
      · exact absurd (sameMembers_symm hs) (hp.1 e1 h1')
      · exact ih hp.2 h1' h2'

theorem updateBySet_decomp (m : TargetSetDetailsMap) (M : List Target)
    (k : String) (f : Bool) :
    (∃ m₁ M₀ d m₂, m = m₁ ++ (M₀, d) :: m₂ ∧ isSameSet M₀ M = true ∧
        (∀ e ∈ m₁, isSameSet e.1 M = false) ∧
        updateBySet m M k f = m₁ ++ (M₀, { d with keys := setAdd d.keys k }) :: m₂) ∨
    ((∀ e ∈ m, isSameSet e.1 M = false) ∧
        updateBySet m M k f = m ++ [(M, { keys := [k], shouldInitiateDefer := f })]) := by
  induction m with
  | nil =>
    right
    exact ⟨by simp, rfl⟩
  | cons e rest ih =>
    obtain ⟨Me, de⟩ := e
    by_cases h : isSameSet Me M = true
    · left
      exact ⟨[], Me, de, rest, by simp, h, by simp, by simp [updateBySet, h]⟩
    · rw [Bool.not_eq_true] at h
      rcases ih with ⟨m₁, M₀, d, m₂, he, hs, hall, hupd⟩ | ⟨hall, hupd⟩
      · left
        refine ⟨(Me, de) :: m₁, M₀, d, m₂, by rw [he, List.cons_append], hs, ?_, ?_⟩
        · intro e' he'
          rcases List.mem_cons.mp he' with rfl | he''
          · exact h
          · exact hall e' he''
        · simp [updateBySet, h, hupd]
      · right
        refine ⟨?_, ?_⟩
        · intro e' he'
          rcases List.mem_cons.mp he' with rfl | he''
          · exact h
          · exact hall e' he''
        · simp [updateBySet, h, hupd]

theorem GTSDInv_init (pts : List Target) : GTSDInv pts [] [] [] where
  ptkNodup := List.nodup_nil
  memPtk := by simp
  setsNodup := by simp
  pairwiseDistinct := List.Pairwise.nil
  keysSound := by simp
  keysComplete := by simp
  flagSpec := by simp
  keysNonempty := by simp

theorem mem_replace_snd {m₁ m₂ : TargetSetDetailsMap} {M₀ : List Target}
    {d d' : TargetSetDetails} {e : List Target × TargetSetDetails}
    (he : e ∈ m₁ ++ (M₀, d') :: m₂) :
    e ∈ m₁ ++ (M₀, d) :: m₂ ∨ e = (M₀, d') := by
  rcases List.mem_append.mp he with h | h
  · exact Or.inl (List.mem_append_left _ h)
  · rcases List.mem_cons.mp h with rfl | h
    · exact Or.inr rfl
    · exact Or.inl (List.mem_append_right _ (List.mem_cons_of_mem _ h))

theorem pairwise_replace_snd {m₁ m₂ : TargetSetDetailsMap} {M₀ : List Target}
    {d d' : TargetSetDetails}
    (h : (m₁ ++ (M₀, d) :: m₂).Pairwise fun e1 e2 => ¬ sameMembers e1.1 e2.1) :
    (m₁ ++ (M₀, d') :: m₂).Pairwise fun e1 e2 => ¬ sameMembers e1.1 e2.1 := by
  rw [List.pairwise_append] at h ⊢
  obtain ⟨h1, h2, h3⟩ := h
  rw [List.pairwise_cons] at h2 ⊢
  refine ⟨h1, ⟨fun e he => h2.1 e he, h2.2⟩, ?_⟩
  intro e1 he1 e2 he2
  rcases List.mem_cons.mp he2 with rfl | he2'
  · exact h3 e1 he1 (M₀, d) (List.mem_cons_self _ _)
  · exact h3 e1 he1 e2 (List.mem_cons_of_mem _ he2')

theorem GTSDInv_step_same {pts : List Target} {done : TargetsByKey}
    {ptk : List String} {m : TargetSetDetailsMap} (key : String) {ts : List Target}
    (inv : GTSDInv pts done ptk m) (hts : ts.Nodup)
    (hsame : isSameSet (jsSetOf (maskingTargetListOf ts)) pts = true) :
    GTSDInv pts (done ++ [(key, ts)]) (setAdd ptk key) m := by
  have hsm : sameMembers (maskingTargetListOf ts) pts :=
    sameMembers_trans (sameMembers_symm (sameMembers_jsSetOf _))
      (sameMembers_of_isSameSet_true (nodup_jsSetOf _) hsame)
  refine ⟨nodup_setAdd inv.ptkNodup key, ?_, inv.setsNodup, inv.pairwiseDistinct,
    ?_, ?_, inv.flagSpec, inv.keysNonempty⟩
  · intro k
    rw [mem_setAdd, inv.memPtk]
    constructor
    · rintro (⟨ts', hmem, hP⟩ | rfl)
      · exact ⟨ts', List.mem_append_left _ hmem, hP⟩
      · exact ⟨ts, List.mem_append_right _ (List.mem_cons_self _ _), hsm⟩
    · rintro ⟨ts', hmem, hP⟩
      rcases List.mem_append.mp hmem with hd | hnew
      · exact Or.inl ⟨ts', hd, hP⟩
      · simp only [List.mem_singleton, Prod.mk.injEq] at hnew
        exact Or.inr hnew.1
  · intro M d k hmem hk
    obtain ⟨ts', hts', hP1, hP2⟩ := inv.keysSound M d k hmem hk
    exact ⟨ts', List.mem_append_left _ hts', hP1, hP2⟩
  · intro k ts' hmem hP
    rcases List.mem_append.mp hmem with hd | hnew
    · exact inv.keysComplete k ts' hd hP
    · simp only [List.mem_singleton, Prod.mk.injEq] at hnew
      obtain ⟨rfl, rfl⟩ := hnew
      exact absurd hsm hP

theorem GTSDInv_step_diff {pts : List Target} {done : TargetsByKey}
    {ptk : List String} {m : TargetSetDetailsMap} (key : String) {ts : List Target}
    (inv : GTSDInv pts done ptk m) (hpts : pts.Nodup) (hts : ts.Nodup)
    (hdiff : isSameSet (jsSetOf (maskingTargetListOf ts)) pts = false) :
    GTSDInv pts (done ++ [(key, ts)]) ptk
      (updateBySet m (jsSetOf (maskingTargetListOf ts)) key
        ((maskingTargetListOf ts).any fun t => !(pts.contains t))) := by
  set mtl := maskingTargetListOf ts with hmtl
  set M := jsSetOf mtl with hMdef
  set flagVal := mtl.any (fun t => !(pts.contains t)) with hflag
  have hMnd : M.Nodup := nodup_jsSetOf mtl
  have hMsm : sameMembers M mtl := sameMembers_jsSetOf mtl
  have hnotM : ¬ sameMembers M pts :=
    not_sameMembers_of_isSameSet_false hMnd hpts hdiff
  have hnot : ¬ sameMembers mtl pts := fun hc => hnotM (sameMembers_trans hMsm hc)
  have hflagSpec : flagVal = true ↔ ∃ t ∈ M, t ∉ pts := by
    rw [hflag, List.any_eq_true]
    constructor
    · rintro ⟨t, htm, htp⟩
      rw [Bool.not_eq_true', ← Bool.not_eq_true, List.elem_iff] at htp
      exact ⟨t, (hMsm t).mpr htm, htp⟩
    · rintro ⟨t, htm, htp⟩
      refine ⟨t, (hMsm t).mp htm, ?_⟩
      rw [Bool.not_eq_true', ← Bool.not_eq_true, List.elem_iff]
      exact htp
  have hmemPtk : ∀ k, k ∈ ptk ↔ ∃ ts', (k, ts') ∈ done ++ [(key, ts)] ∧
      sameMembers (maskingTargetListOf ts') pts := by
    intro k
    rw [inv.memPtk]
    constructor
    · rintro ⟨ts', hmem, hP⟩
      exact ⟨ts', List.mem_append_left _ hmem, hP⟩
    · rintro ⟨ts', hmem, hP⟩
      rcases List.mem_append.mp hmem with hd | hnew
      · exact ⟨ts', hd, hP⟩
      · simp only [List.mem_singleton, Prod.mk.injEq] at hnew
        obtain ⟨rfl, rfl⟩ := hnew
        exact absurd hP hnot
  rcases updateBySet_decomp m M key flagVal with
    ⟨m₁, M₀, d, m₂, he, hfound, hall, hupd⟩ | ⟨hall, hupd⟩
  · -- an entry with an isSameSet-equal key set exists and gains the key
    have hM₀mem : (M₀, d) ∈ m := by
      rw [he]; exact List.mem_append_right _ (List.mem_cons_self _ _)
    have hM₀nd : M₀.Nodup := inv.setsNodup (M₀, d) hM₀mem
    have hM₀sm : sameMembers M₀ mtl :=
      sameMembers_trans (sameMembers_of_isSameSet_true hM₀nd hfound) hMsm
    rw [hupd]
    refine ⟨inv.ptkNodup, hmemPtk, ?_, ?_, ?_, ?_, ?_, ?_⟩
    · intro e hmem
      rcases mem_replace_snd (d := d) hmem with hold | rfl
      · exact inv.setsNodup e (he ▸ hold)
      · exact hM₀nd
    · exact pairwise_replace_snd (he ▸ inv.pairwiseDistinct)
    · intro M' d' k hmem hk
      rcases mem_replace_snd (d := d) hmem with hold | heq
      · obtain ⟨ts', h1, h2, h3⟩ := inv.keysSound M' d' k (he ▸ hold) hk
        exact ⟨ts', List.mem_append_left _ h1, h2, h3⟩
      · rw [Prod.mk.injEq] at heq
        obtain ⟨hM1, hd1⟩ := heq
        rw [hd1] at hk
        rcases (mem_setAdd.mp hk) with hkold | hkeq
        · obtain ⟨ts', h1, h2, h3⟩ := inv.keysSound M₀ d k hM₀mem hkold
          refine ⟨ts', List.mem_append_left _ h1, ?_, h3⟩
          rw [hM1]
          exact h2
        · refine ⟨ts, ?_, ?_, hnot⟩
          · rw [hkeq]
            exact List.mem_append_right _ (List.mem_cons_self _ _)
          · rw [hM1]
            exact hM₀sm
    · intro k ts' hmem hP
      rcases List.mem_append.mp hmem with hd | hnew
      · obtain ⟨M', d', h1, h2, h3⟩ := inv.keysComplete k ts' hd hP
        rw [he] at h1
        rcases List.mem_append.mp h1 with h1' | h1'
        · exact ⟨M', d', List.mem_append_left _ h1', h2, h3⟩
        · rcases List.mem_cons.mp h1' with heq | h1''
          · rw [Prod.mk.injEq] at heq
            obtain ⟨hM1, hd1⟩ := heq
            refine ⟨M₀, { d with keys := setAdd d.keys key }, ?_, ?_, ?_⟩
            · exact List.mem_append_right _ (List.mem_cons_self _ _)
            · exact mem_setAdd.mpr (Or.inl (hd1 ▸ h2))
            · rw [← hM1]
              exact h3
          · exact ⟨M', d', List.mem_append_right _ (List.mem_cons_of_mem _ h1''), h2, h3⟩
      · simp only [List.mem_singleton, Prod.mk.injEq] at hnew
        obtain ⟨hk1, hk2⟩ := hnew
        refine ⟨M₀, { d with keys := setAdd d.keys key }, ?_, ?_, ?_⟩
        · exact List.mem_append_right _ (List.mem_cons_self _ _)
        · rw [hk1]
          exact mem_setAdd.mpr (Or.inr rfl)
        · rw [hk2]
          exact hM₀sm
    · intro M' d' hmem
      rcases mem_replace_snd (d := d) hmem with hold | heq
      · exact inv.flagSpec M' d' (he ▸ hold)
      · rw [Prod.mk.injEq] at heq
        obtain ⟨hM1, hd1⟩ := heq
        rw [hM1, hd1]
        exact inv.flagSpec M₀ d hM₀mem
    · intro M' d' hmem
      rcases mem_replace_snd (d := d) hmem with hold | heq
      · exact inv.keysNonempty M' d' (he ▸ hold)
      · rw [Prod.mk.injEq] at heq
        obtain ⟨hM1, hd1⟩ := heq
        rw [hd1]
        simp [setAdd_ne_nil]
  · -- no equal key set yet: a fresh entry is appended
    rw [hupd]
    have hcross : ∀ e ∈ m, ¬ sameMembers e.1 M := fun e hmem =>
      not_sameMembers_of_isSameSet_false (inv.setsNodup e hmem) hMnd (hall e hmem)
    refine ⟨inv.ptkNodup, hmemPtk, ?_, ?_, ?_, ?_, ?_, ?_⟩
    · intro e hmem
      rcases List.mem_append.mp hmem with hold | hnew
      · exact inv.setsNodup e hold
      · simp only [List.mem_singleton] at hnew
        rw [hnew]
        exact hMnd
    · rw [List.pairwise_append]
      refine ⟨inv.pairwiseDistinct, List.pairwise_singleton _ _, ?_⟩
      intro e1 he1 e2 he2
      simp only [List.mem_singleton] at he2
      rw [he2]
      exact hcross e1 he1
    · intro M' d' k hmem hk
      rcases List.mem_append.mp hmem with hold | hnew
      · obtain ⟨ts', h1, h2, h3⟩ := inv.keysSound M' d' k hold hk
        exact ⟨ts', List.mem_append_left _ h1, h2, h3⟩
      · simp only [List.mem_singleton, Prod.mk.injEq] at hnew
        obtain ⟨hM1, hd1⟩ := hnew
        rw [hd1] at hk
        have hkeq : k = key := by simpa using hk
        refine ⟨ts, ?_, ?_, hnot⟩
        · rw [hkeq]
          exact List.mem_append_right _ (List.mem_cons_self _ _)
        · rw [hM1]
          exact hMsm
    · intro k ts' hmem hP
      rcases List.mem_append.mp hmem with hd | hnew
      · obtain ⟨M', d', h1, h2, h3⟩ := inv.keysComplete k ts' hd hP
        exact ⟨M', d', List.mem_append_left _ h1, h2, h3⟩
      · simp only [List.mem_singleton, Prod.mk.injEq] at hnew
        obtain ⟨hk1, hk2⟩ := hnew
        refine ⟨M, { keys := [key], shouldInitiateDefer := flagVal }, ?_, ?_, ?_⟩
        · exact List.mem_append_right _ (List.mem_cons_self _ _)
        · rw [hk1]
          exact List.mem_singleton.mpr rfl
        · rw [hk2]
          exact hMsm
    · intro M' d' hmem
      rcases List.mem_append.mp hmem with hold | hnew
      · exact inv.flagSpec M' d' hold
      · simp only [List.mem_singleton, Prod.mk.injEq] at hnew
        obtain ⟨hM1, hd1⟩ := hnew
        rw [hM1, hd1]
        exact hflagSpec
    · intro M' d' hmem
      rcases List.mem_append.mp hmem with hold | hnew
      · exact inv.keysNonempty M' d' hold
      · simp only [List.mem_singleton, Prod.mk.injEq] at hnew
        obtain ⟨hM1, hd1⟩ := hnew
        rw [hd1]
        simp

theorem GTSDInv_loop (pts : List Target) (hpts : pts.Nodup) :
    ∀ (rest done : TargetsByKey) (ptk : List String) (m : TargetSetDetailsMap),
      ((done ++ rest).map Prod.fst).Nodup →
      (∀ e ∈ rest, e.2.Nodup) →
      GTSDInv pts done ptk m →
      GTSDInv pts (done ++ rest)
        (getTargetSetDetailsLoop pts rest ptk m).1
        (getTargetSetDetailsLoop pts rest ptk m).2 := by
  intro rest
  induction rest with
  | nil =>
    intro done ptk m _ _ inv
    simpa [getTargetSetDetailsLoop] using inv
  | cons e rest' ih =>
    intro done ptk m hnd hrs inv
    obtain ⟨key, ts⟩ := e
    have hts : ts.Nodup := hrs (key, ts) (List.mem_cons_self _ _)
    have hrs' : ∀ e ∈ rest', e.2.Nodup := fun e he => hrs e (List.mem_cons_of_mem _ he)
    have hnd' : (((done ++ [(key, ts)]) ++ rest').map Prod.fst).Nodup := by
      rw [List.append_assoc, List.singleton_append]
      exact hnd
    by_cases h : isSameSet (jsSetOf (maskingTargetListOf ts)) pts = true
    · have step := GTSDInv_step_same key inv hts h
      have res := ih (done ++ [(key, ts)]) (setAdd ptk key) m hnd' hrs' step
      rw [List.append_assoc, List.singleton_append] at res
      simpa [getTargetSetDetailsLoop, h] using res
    · rw [Bool.not_eq_true] at h
      have step := GTSDInv_step_diff key inv hpts hts h
      have res := ih (done ++ [(key, ts)]) ptk _ hnd' hrs' step
      rw [List.append_assoc, List.singleton_append] at res
      simpa [getTargetSetDetailsLoop, h] using res

/-- Full functional specification of `getTargetSetDetails` on well-formed
accumulators. -/
theorem getTargetSetDetails_spec (targetsByKey : TargetsByKey)
    (parentTargets : List Target)
    (hkeys : (targetsByKey.map Prod.fst).Nodup)
    (hsets : ∀ e ∈ targetsByKey, e.2.Nodup)
    (hpts : parentTargets.Nodup) :
    GTSDInv parentTargets targetsByKey
      (getTargetSetDetails targetsByKey parentTargets).1
      (getTargetSetDetails targetsByKey parentTargets).2 := by
  have := GTSDInv_loop parentTargets hpts targetsByKey [] [] []
    (by simpa using hkeys) hsets (GTSDInv_init parentTargets)
  simpa [getTargetSetDetails] using this

/-- C1: for every response key, the masking target set recorded by
`getTargetSetDetails` (the caller's parent target set when the key went to
`parentTargetKeys`, else the key set of the map entry listing the key)
contains exactly those targets of the key's per-key target set none of
whose ancestors is also in that set; the base sentinel is always
retained. -/
theorem C1_masking_target_set :
    ∀ (targetsByKey : TargetsByKey) (parentTargets : List Target)
      (key : String) (targets : List Target),
      (targetsByKey.map Prod.fst).Nodup →
      (∀ e ∈ targetsByKey, e.2.Nodup) →
      parentTargets.Nodup →
      (key, targets) ∈ targetsByKey →
      ∃ M, ((key ∈ (getTargetSetDetails targetsByKey parentTargets).1 ∧
              M = parentTargets) ∨
            (∃ d, (M, d) ∈ (getTargetSetDetails targetsByKey parentTargets).2 ∧
              key ∈ d.keys)) ∧
        ∀ t, t ∈ M ↔
          t ∈ targets ∧ (t = Target.base ∨ ∀ a ∈ t.ancestorsOf, a ∉ targets) := by
  intro targetsByKey parentTargets key targets hkeys hsets hpts hmem
  have spec := getTargetSetDetails_spec targetsByKey parentTargets hkeys hsets hpts
  have hchar : ∀ t, t ∈ maskingTargetListOf targets ↔
      t ∈ targets ∧ (t = Target.base ∨ ∀ a ∈ t.ancestorsOf, a ∉ targets) := by
    intro t
    rw [mem_maskingTargetListOf]
    apply and_congr_right
    intro _
    constructor
    · exact Or.inr
    · rintro (rfl | h)
      · intro a ha
        simp [Target.ancestorsOf] at ha
      · exact h
  by_cases hmask : sameMembers (maskingTargetListOf targets) parentTargets
  · refine ⟨parentTargets, Or.inl ⟨?_, rfl⟩, ?_⟩
    · exact (spec.memPtk key).mpr ⟨targets, hmem, hmask⟩
    · intro t
      rw [← hmask t]
      exact hchar t
  · obtain ⟨M, d, hm, hk, hsm⟩ := spec.keysComplete key targets hmem hmask
    refine ⟨M, Or.inr ⟨d, hm, hk⟩, ?_⟩
    intro t
    rw [hsm t]
    exact hchar t

/-- Closed witness for C1: in `{a ↦ {base}, c ↦ {T}}` against parent set
`{base}`, the key `c` has a recorded masking set. -/
theorem C1_masking_target_set_witness :
    ∃ M, (("c" ∈ (getTargetSetDetails
            [("a", [Target.base]), ("c", [Target.deferred 0 none Target.base])]
            [Target.base]).1 ∧ M = [Target.base]) ∨
          (∃ d, (M, d) ∈ (getTargetSetDetails
            [("a", [Target.base]), ("c", [Target.deferred 0 none Target.base])]
            [Target.base]).2 ∧ "c" ∈ d.keys)) ∧
      ∀ t, t ∈ M ↔
        t ∈ [Target.deferred 0 none Target.base] ∧
          (t = Target.base ∨ ∀ a ∈ t.ancestorsOf, a ∉ [Target.deferred 0 none Target.base]) :=
  C1_masking_target_set
    [("a", [Target.base]), ("c", [Target.deferred 0 none Target.base])]
    [Target.base] "c" [Target.deferred 0 none Target.base]
    (by decide) (by decide) (by decide) (by decide)

/-- C2: partitioning.  A key goes to `parentTargetKeys` iff its masking set
equals (by membership) the caller's parent target set; every other key is
listed in an entry whose key set equals its masking set by membership;
entries are unique up to membership equality (so membership-equal masking
sets share one entry); every listed key is a collected key with that
masking set; and an entry's `shouldInitiateDefer` is `true` iff some target
of its set is not in the parent target set. -/
theorem C2_partition_and_flags :
    ∀ (targetsByKey : TargetsByKey) (parentTargets : List Target),
      (targetsByKey.map Prod.fst).Nodup →
      (∀ e ∈ targetsByKey, e.2.Nodup) →
      parentTargets.Nodup →
      (∀ key targets, (key, targets) ∈ targetsByKey →
        (key ∈ (getTargetSetDetails targetsByKey parentTargets).1 ↔
          sameMembers (maskingTargetListOf targets) parentTargets)) ∧
      (∀ key targets, (key, targets) ∈ targetsByKey →
        ¬ sameMembers (maskingTargetListOf targets) parentTargets →
        ∃ M d, (M, d) ∈ (getTargetSetDetails targetsByKey parentTargets).2 ∧
          key ∈ d.keys ∧ sameMembers M (maskingTargetListOf targets)) ∧
      (∀ M d key, (M, d) ∈ (getTargetSetDetails targetsByKey parentTargets).2 →
        key ∈ d.keys →
        ∃ targets, (key, targets) ∈ targetsByKey ∧
          sameMembers M (maskingTargetListOf targets) ∧
          ¬ sameMembers (maskingTargetListOf targets) parentTargets) ∧
      (∀ M₁ d₁ M₂ d₂,
        (M₁, d₁) ∈ (getTargetSetDetails targetsByKey parentTargets).2 →
        (M₂, d₂) ∈ (getTargetSetDetails targetsByKey parentTargets).2 →
        sameMembers M₁ M₂ → (M₁, d₁) = (M₂, d₂)) ∧
      (∀ M d, (M, d) ∈ (getTargetSetDetails targetsByKey parentTargets).2 →
        (d.shouldInitiateDefer = true ↔ ∃ t ∈ M, t ∉ parentTargets)) := by
  intro targetsByKey parentTargets hkeys hsets hpts
  have spec := getTargetSetDetails_spec targetsByKey parentTargets hkeys hsets hpts
  refine ⟨?_, ?_, spec.keysSound, ?_, spec.flagSpec⟩
  · intro key targets hmem
    rw [spec.memPtk key]
    constructor
    · rintro ⟨ts', hmem', hsm⟩
      rwa [assoc_functional hkeys hmem' hmem] at hsm
    · intro h
      exact ⟨targets, hmem, h⟩
  · exact spec.keysComplete
  · intro M₁ d₁ M₂ d₂ h1 h2 hsm
    exact pairwise_entry_unique spec.pairwiseDistinct h1 h2 hsm

/-- Closed witness for C2: the same two-key accumulator as for C1, with
the first clause applied to the key `a`. -/
theorem C2_partition_and_flags_witness :
    "a" ∈ (getTargetSetDetails
      [("a", [Target.base]), ("c", [Target.deferred 0 none Target.base])]
      [Target.base]).1 ↔
    sameMembers (maskingTargetListOf [Target.base]) [Target.base] :=
  (C2_partition_and_flags
    [("a", [Target.base]), ("c", [Target.deferred 0 none Target.base])]
    [Target.base] (by decide) (by decide) (by decide)).1
    "a" [Target.base] (by decide)

theorem mapGet_mapSet_self [DecidableEq α] (m : List (α × β)) (k : α) (v : β) :
    mapGet (mapSet m k v) k = some v := by
  induction m with
  | nil => simp [mapSet, mapGet]
  | cons e rest ih =>
    obtain ⟨a, b⟩ := e
    by_cases h : a = k
    · simp [mapSet, mapGet, h]
    · simp [mapSet, mapGet, h, ih]

theorem mapGet_mapSet_ne [DecidableEq α] (m : List (α × β)) {k k' : α} (v : β)
    (h : k' ≠ k) : mapGet (mapSet m k v) k' = mapGet m k' := by
  induction m with
  | nil => simp [mapSet, mapGet, Ne.symm h]
  | cons e rest ih =>
    obtain ⟨a, b⟩ := e
    by_cases ha : a = k
    · subst ha
      simp [mapSet, mapGet, Ne.symm h]
    · by_cases ha' : a = k'
      · simp [mapSet, mapGet, ha, ha', h]
      · simp [mapSet, mapGet, ha, ha', ih]

theorem mapGet_mapDelete_ne [DecidableEq α] (m : List (α × β)) {k k' : α}
    (h : k' ≠ k) : mapGet (mapDelete m k) k' = mapGet m k' := by
  induction m with
  | nil => simp [mapDelete]
  | cons e rest ih =>
    obtain ⟨a, b⟩ := e
    by_cases ha : a = k
    · subst ha
      simp [mapDelete, mapGet, Ne.symm h]
    · by_cases ha' : a = k'
      · simp [mapDelete, mapGet, ha, ha', h]
      · simp [mapDelete, mapGet, ha, ha', ih]

theorem mapGet_some_mem [DecidableEq α] {m : List (α × β)} {k : α} {v : β}
    (h : mapGet m k = some v) : (k, v) ∈ m := by
  induction m with
  | nil => simp [mapGet] at h
  | cons e rest ih =>
    obtain ⟨a, b⟩ := e
    by_cases ha : a = k
    · subst ha
      simp [mapGet] at h
      rw [h]
      exact List.mem_cons_self _ _
    · simp [mapGet, ha] at h
      exact List.mem_cons_of_mem _ (ih h)

theorem keyFieldsFrom_cons (fbt : FieldsByTarget) (key : String)
    (t : Target) (rest : List Target) :
    keyFieldsFrom fbt key (t :: rest) =
      (((nodesAt fbt t key).getD []).map fun node => { node := node, target := t })
        ++ keyFieldsFrom fbt key rest := by
  unfold keyFieldsFrom
  rw [List.flatMap_cons]

theorem keyFieldsFrom_congr {a b : FieldsByTarget} {key : String}
    {targets : List Target}
    (h : ∀ t ∈ targets, nodesAt a t key = nodesAt b t key) :
    keyFieldsFrom a key targets = keyFieldsFrom b key targets := by
  unfold keyFieldsFrom
  induction targets with
  | nil => rfl
  | cons t rest ih =>
    rw [List.flatMap_cons, List.flatMap_cons, h t (List.mem_cons_self _ _),
      ih fun t' ht' => h t' (List.mem_cons_of_mem _ ht')]

theorem collectKeyFields_spec :
    ∀ (ts : List Target) (key : String) (acc : List FieldDetails)
      (fbt : FieldsByTarget) (out : List FieldDetails) (fbt2 : FieldsByTarget),
      ts.Nodup →
      collectKeyFields key ts acc fbt = .ok (out, fbt2) →
      out = acc ++ keyFieldsFrom fbt key ts ∧
      (∀ t k', k' ≠ key → nodesAt fbt2 t k' = nodesAt fbt t k') := by
  intro ts
  induction ts with
  | nil =>
    intro key acc fbt out fbt2 _ h
    simp only [collectKeyFields] at h
    rw [Except.ok.injEq, Prod.mk.injEq] at h
    refine ⟨?_, ?_⟩
    · rw [← h.1, keyFieldsFrom, List.flatMap_nil, List.append_nil]
    · intro t k' _
      rw [h.2]
  | cons t rest ih =>
    intro key acc fbt out fbt2 hnd h
    rw [List.nodup_cons] at hnd
    cases hft : mapGet fbt t with
    | none =>
      simp only [collectKeyFields, hft] at h
      exact Except.noConfusion h
    | some fieldsForTarget =>
      cases hnodes : mapGet fieldsForTarget key with
      | none =>
        simp only [collectKeyFields, hft, hnodes] at h
        exact Except.noConfusion h
      | some nodes =>
        simp only [collectKeyFields, hft, hnodes] at h
        obtain ⟨hout, hpres⟩ := ih key
          (acc ++ nodes.map fun node => { node := node, target := t })
          (mapSet fbt t (mapDelete fieldsForTarget key)) out fbt2 hnd.2 h
        have hpres1 : ∀ t' k', k' ≠ key →
            nodesAt (mapSet fbt t (mapDelete fieldsForTarget key)) t' k'
              = nodesAt fbt t' k' := by
          intro t' k' hk'
          unfold nodesAt
          by_cases ht' : t' = t
          · subst ht'
            rw [mapGet_mapSet_self, hft]
            exact mapGet_mapDelete_ne fieldsForTarget hk'
          · rw [mapGet_mapSet_ne _ _ ht']
        have hfacs : keyFieldsFrom (mapSet fbt t (mapDelete fieldsForTarget key))
            key rest = keyFieldsFrom fbt key rest := by
          apply keyFieldsFrom_congr
          intro t' ht'
          unfold nodesAt
          have ht'' : t' ≠ t := fun hc => hnd.1 (hc ▸ ht')
          rw [mapGet_mapSet_ne _ _ ht'']
        refine ⟨?_, fun t' k' hk' => (hpres t' k' hk').trans (hpres1 t' k' hk')⟩
        have hn : nodesAt fbt t key = some nodes := by
          rw [nodesAt, hft]
          exact hnodes
        rw [hout, hfacs, keyFieldsFrom_cons, hn, Option.getD_some, List.append_assoc]

theorem orderedGroupLoop_spec :
    ∀ (entries : List (String × List FieldNode)) (keys : List String)
      (maskingTargets : List Target) (tbk : TargetsByKey)
      (acc : GroupedFieldSet) (fbt : FieldsByTarget)
      (gfs : GroupedFieldSet) (fbt2 : FieldsByTarget),
      (entries.map Prod.fst).Nodup →
      (∀ e ∈ tbk, e.2.Nodup) →
      (∀ k, k ∈ entries.map Prod.fst → mapGet acc k = none) →
      orderedGroupLoop keys maskingTargets tbk entries acc fbt = .ok (gfs, fbt2) →
      (∀ key g, mapGet acc key = some g → mapGet gfs key = some g) ∧
      (∀ key g, mapGet gfs key = some g → mapGet acc key = none →
        key ∈ entries.map Prod.fst ∧ keys.contains key = true ∧
        ∃ keyTargets, mapGet tbk key = some keyTargets ∧
          g = { fields := keyFieldsFrom fbt key keyTargets,
                targets := maskingTargets }) := by
  intro entries
  induction entries with
  | nil =>
    intro keys maskingTargets tbk acc fbt gfs fbt2 _ _ _ h
    simp only [orderedGroupLoop] at h
    rw [Except.ok.injEq, Prod.mk.injEq] at h
    obtain ⟨h1, _⟩ := h
    subst h1
    refine ⟨fun key g hg => hg, fun key g hg hnone => ?_⟩
    rw [hg] at hnone
    exact Option.noConfusion hnone
  | cons e rest ih =>
    intro keys maskingTargets tbk acc fbt gfs fbt2 hnd htbk hacc h
    obtain ⟨key0, nodes0⟩ := e
    rw [List.map_cons, List.nodup_cons] at hnd
    by_cases hin : keys.contains key0 = true
    · cases htk : mapGet tbk key0 with
      | none =>
        simp only [orderedGroupLoop, hin, htk] at h
        exact Except.noConfusion h
      | some keyTargets0 =>
        cases hckf : collectKeyFields key0 keyTargets0 [] fbt with
        | error err =>
          simp only [orderedGroupLoop, hin, htk, hckf] at h
          exact Except.noConfusion h
        | ok pair =>
          obtain ⟨newFields, fbt1⟩ := pair
          have hacc0 : mapGet acc key0 = none := hacc key0 (by simp)
          simp only [orderedGroupLoop, hin, htk, hckf, hacc0, Option.getD_none,
            List.nil_append, if_true] at h
          have hkt0nd : keyTargets0.Nodup :=
            htbk (key0, keyTargets0) (mapGet_some_mem htk)
          obtain ⟨hout, hpres⟩ :=
            collectKeyFields_spec keyTargets0 key0 [] fbt newFields fbt1 hkt0nd hckf
          have houtn : newFields = keyFieldsFrom fbt key0 keyTargets0 := by
            simpa using hout
          have hacc' : ∀ k, k ∈ rest.map Prod.fst →
              mapGet (mapSet acc key0
                { fields := newFields, targets := maskingTargets }) k = none := by
            intro k hk
            have hkne : k ≠ key0 := fun hc => hnd.1 (hc ▸ hk)
            rw [mapGet_mapSet_ne _ _ hkne]
            exact hacc k (by simp [hk])
          obtain ⟨ha, hb⟩ := ih keys maskingTargets tbk _ fbt1 gfs fbt2
            hnd.2 htbk hacc' h
          refine ⟨?_, ?_⟩
          · intro key g hg
            have hkne : key ≠ key0 := by
              intro hc
              rw [hc, hacc0] at hg
              exact Option.noConfusion hg
            exact ha key g (by rw [mapGet_mapSet_ne _ _ hkne]; exact hg)
          · intro key g hg hnone
            by_cases hkey : key = key0
            · subst hkey
              have hg' := ha key { fields := newFields, targets := maskingTargets }
                (mapGet_mapSet_self acc key _)
              have hgeq : g = { fields := newFields, targets := maskingTargets } := by
                have := hg.symm.trans hg'
                exact Option.some.inj this
              refine ⟨by simp, hin, keyTargets0, htk, ?_⟩
              rw [hgeq, houtn]
            · have hnone' : mapGet (mapSet acc key0
                  { fields := newFields, targets := maskingTargets }) key = none := by
                rw [mapGet_mapSet_ne _ _ hkey]
                exact hnone
              obtain ⟨hmem, hcont, kts, hktk, hgval⟩ := hb key g hg hnone'
              refine ⟨by simp [hmem], hcont, kts, hktk, ?_⟩
              rw [hgval]
              have : keyFieldsFrom fbt1 key kts = keyFieldsFrom fbt key kts :=
                keyFieldsFrom_congr fun t _ => hpres t key hkey
              rw [this]
    · rw [Bool.not_eq_true] at hin
      simp only [orderedGroupLoop, hin, Bool.false_eq_true, if_false] at h
      obtain ⟨ha, hb⟩ := ih keys maskingTargets tbk acc fbt gfs fbt2 hnd.2 htbk
        (fun k hk => hacc k (by simp [hk])) h
      refine ⟨ha, fun key g hg hnone => ?_⟩
      obtain ⟨hmem, hcont, kts, hktk, hgval⟩ := hb key g hg hnone
      exact ⟨by simp [hmem], hcont, kts, hktk, hgval⟩

/-- C4, amended: a group's field list is the concatenation over *all*
targets of the key's per-key target set — not only over the masking set —
of the nodes accumulated for the key under each target, paired with their
owning target (and the group's target set is the masking set passed in). -/
theorem C4_amended_group_fields :
    ∀ (keys : List String) (maskingTargets : List Target)
      (targetsByKey : TargetsByKey) (fieldsByTarget : FieldsByTarget)
      (gfs : GroupedFieldSet) (fbt2 : FieldsByTarget),
      (∀ e ∈ fieldsByTarget, (e.2.map Prod.fst).Nodup) →
      (∀ e ∈ targetsByKey, e.2.Nodup) →
      getOrderedGroupedFieldSet keys maskingTargets targetsByKey fieldsByTarget
        = .ok (gfs, fbt2) →
      ∀ key g, mapGet gfs key = some g →
        ∃ keyTargets, mapGet targetsByKey key = some keyTargets ∧
          g.targets = maskingTargets ∧
          g.fields = keyFieldsFrom fieldsByTarget key keyTargets := by
  intro keys maskingTargets targetsByKey fieldsByTarget gfs fbt2 hfbt htbk h key g hg
  cases hff : mapGet fieldsByTarget (firstTargetOf maskingTargets) with
  | none =>
    simp only [getOrderedGroupedFieldSet, hff] at h
    exact Except.noConfusion h
  | some firstFields =>
    simp only [getOrderedGroupedFieldSet, hff] at h
    have hffnd : (firstFields.map Prod.fst).Nodup :=
      hfbt _ (mapGet_some_mem hff)
    obtain ⟨_, hb⟩ := orderedGroupLoop_spec firstFields keys maskingTargets
      targetsByKey [] fieldsByTarget gfs fbt2 hffnd htbk (fun _ _ => rfl) h
    obtain ⟨_, _, kts, hktk, hgval⟩ := hb key g hg rfl
    refine ⟨kts, hktk, ?_, ?_⟩
    · rw [hgval]
    · rw [hgval]

/-- Closed witness for the amended C4: the base-bucket call on the C3
accumulators; the group of `b` concatenates over both of its targets. -/
theorem C4_amended_group_fields_witness :
    ∃ keyTargets, mapGet c4TargetsByKey "b" = some keyTargets ∧
      (FieldGroup.mk
        [{ node := ⟨none, "b", []⟩, target := Target.base },
         { node := ⟨none, "b", []⟩, target := Target.deferred 0 none Target.base }]
        [Target.base]).targets = [Target.base] ∧
      (FieldGroup.mk
        [{ node := ⟨none, "b", []⟩, target := Target.base },
         { node := ⟨none, "b", []⟩, target := Target.deferred 0 none Target.base }]
        [Target.base]).fields = keyFieldsFrom c4FieldsByTarget "b" keyTargets :=
  C4_amended_group_fields ["a", "b"] [Target.base] c4TargetsByKey c4FieldsByTarget
    [("a", FieldGroup.mk [{ node := ⟨none, "a", []⟩, target := Target.base }] [Target.base]),
     ("b", FieldGroup.mk
       [{ node := ⟨none, "b", []⟩, target := Target.base },
        { node := ⟨none, "b", []⟩, target := Target.deferred 0 none Target.base }]
       [Target.base])]
    [(Target.base, []),
     (Target.deferred 0 none Target.base, [("c", [⟨none, "c", []⟩])])]
    (by decide) (by decide) (by decide) "b" _ (by decide)

theorem mem_mapSet [DecidableEq α] {m : List (α × β)} {k : α} {v : β}
    {e : α × β} (he : e ∈ mapSet m k v) : e ∈ m ∨ e = (k, v) := by
  induction m with
  | nil =>
    simp [mapSet] at he
    exact Or.inr he
  | cons a rest ih =>
    obtain ⟨a1, a2⟩ := a
    by_cases h : a1 = k
    · simp [mapSet, h] at he
      rcases he with rfl | he'
      · exact Or.inr rfl
      · exact Or.inl (List.mem_cons_of_mem _ he')
    · simp [mapSet, h] at he
      rcases he with rfl | he'
      · exact Or.inl (List.mem_cons_self _ _)
      · rcases ih he' with h1 | h1
        · exact Or.inl (List.mem_cons_of_mem _ h1)
        · exact Or.inr h1

theorem map_fst_mapSet [DecidableEq α] (m : List (α × β)) (k : α) (v : β) :
    (mapSet m k v).map Prod.fst = m.map Prod.fst ∨
    ((mapSet m k v).map Prod.fst = m.map Prod.fst ++ [k] ∧
      k ∉ m.map Prod.fst) := by
  induction m with
  | nil => simp [mapSet]
  | cons a rest ih =>
    obtain ⟨a1, a2⟩ := a
    by_cases h : a1 = k
    · left
      simp [mapSet, h]
    · rcases ih with h1 | ⟨h1, h2⟩
      · left
        simp [mapSet, h, h1]
      · right
        constructor
        · simp [mapSet, h, h1]
        · simp only [List.map_cons, List.mem_cons]
          rintro (rfl | hc)
          · exact h rfl
          · exact h2 hc

theorem nodup_map_fst_mapSet [DecidableEq α] {m : List (α × β)} (k : α) (v : β)
    (h : (m.map Prod.fst).Nodup) : ((mapSet m k v).map Prod.fst).Nodup := by
  rcases map_fst_mapSet m k v with h1 | ⟨h1, h2⟩
  · rw [h1]; exact h
  · rw [h1, List.nodup_append]
    refine ⟨h, List.nodup_singleton _, fun a ha hb => ?_⟩
    rw [List.mem_singleton] at hb
    rw [hb] at ha
    exact h2 ha

theorem mem_accAdd [DecidableEq α] {m : List (α × List β)} {k : α} {v : β}
    {e : α × List β} (he : e ∈ accAdd m k v) :
    e ∈ m ∨ ∃ vs, e = (k, vs ++ [v]) := by
  induction m with
  | nil =>
    simp [accAdd] at he
    exact Or.inr ⟨[], by simp [he]⟩
  | cons a rest ih =>
    obtain ⟨a1, a2⟩ := a
    by_cases h : a1 = k
    · simp [accAdd, h] at he
      rcases he with rfl | he'
      · exact Or.inr ⟨a2, rfl⟩
      · exact Or.inl (List.mem_cons_of_mem _ he')
    · simp [accAdd, h] at he
      rcases he with rfl | he'
      · exact Or.inl (List.mem_cons_self _ _)
      · rcases ih he' with h1 | h1
        · exact Or.inl (List.mem_cons_of_mem _ h1)
        · exact Or.inr h1

theorem map_fst_accAdd [DecidableEq α] (m : List (α × List β)) (k : α) (v : β) :
    (accAdd m k v).map Prod.fst = m.map Prod.fst ∨
    ((accAdd m k v).map Prod.fst = m.map Prod.fst ++ [k] ∧
      k ∉ m.map Prod.fst) := by
  induction m with
  | nil => simp [accAdd]
  | cons a rest ih =>
    obtain ⟨a1, a2⟩ := a
    by_cases h : a1 = k
    · left
      simp [accAdd, h]
    · rcases ih with h1 | ⟨h1, h2⟩
      · left
        simp [accAdd, h, h1]
      · right
        constructor
        · simp [accAdd, h, h1]
        · simp only [List.map_cons, List.mem_cons]
          rintro (rfl | hc)
          · exact h rfl
          · exact h2 hc

theorem nodup_map_fst_accAdd [DecidableEq α] {m : List (α × List β)} (k : α) (v : β)
    (h : (m.map Prod.fst).Nodup) : ((accAdd m k v).map Prod.fst).Nodup := by
  rcases map_fst_accAdd m k v with h1 | ⟨h1, h2⟩
  · rw [h1]; exact h
  · rw [h1, List.nodup_append]
    refine ⟨h, List.nodup_singleton _, fun a ha hb => ?_⟩
    rw [List.mem_singleton] at hb
    rw [hb] at ha
    exact h2 ha

theorem mapGet_accAdd_self [DecidableEq α] (m : List (α × List β)) (k : α) (v : β) :
    mapGet (accAdd m k v) k = some ((mapGet m k).getD [] ++ [v]) := by
  induction m with
  | nil => simp [accAdd, mapGet]
  | cons a rest ih =>
    obtain ⟨a1, a2⟩ := a
    by_cases h : a1 = k
    · simp [accAdd, mapGet, h]
    · simp [accAdd, mapGet, h, ih]

theorem mapGet_accAdd_ne [DecidableEq α] (m : List (α × List β)) {k k' : α} (v : β)
    (h : k' ≠ k) : mapGet (accAdd m k v) k' = mapGet m k' := by
  induction m with
  | nil => simp [accAdd, mapGet, Ne.symm h]
  | cons a rest ih =>
    obtain ⟨a1, a2⟩ := a
    by_cases ha : a1 = k
    · subst ha
      simp [accAdd, mapGet, Ne.symm h]
    · by_cases ha' : a1 = k'
      · simp [accAdd, mapGet, ha, ha', h]
      · simp [accAdd, mapGet, ha, ha', ih]

theorem mapDelete_sublist [DecidableEq α] (m : List (α × β)) (k : α) :
    (mapDelete m k).Sublist m := by
  induction m with
  | nil => simp [mapDelete]
  | cons a rest ih =>
    obtain ⟨a1, a2⟩ := a
    by_cases h : a1 = k
    · simp only [mapDelete, h, beq_self_eq_true, if_true]
      exact List.sublist_cons_self _ _
    · simp only [mapDelete]
      rw [if_neg (by simpa using h)]
      exact List.Sublist.cons₂ _ ih

theorem mapGet_of_mem_nodup [DecidableEq α] {m : List (α × β)} {k : α} {v : β}
    (hmem : (k, v) ∈ m) (hnd : (m.map Prod.fst).Nodup) : mapGet m k = some v := by
  induction m with
  | nil => cases hmem
  | cons a rest ih =>
    obtain ⟨a1, a2⟩ := a
    rw [List.map_cons, List.nodup_cons] at hnd
    rcases List.mem_cons.mp hmem with heq | hmem'
    · rw [Prod.mk.injEq] at heq
      obtain ⟨h1, h2⟩ := heq
      simp [mapGet, h1, h2]
    · have hne : a1 ≠ k := by
        intro hc
        have hk : k ∈ List.map Prod.fst rest := by
          have := List.mem_map_of_mem Prod.fst hmem'
          simpa using this
        rw [hc] at hnd
        exact hnd.1 hk
      simp [mapGet, hne, ih hmem' hnd.2]

theorem SyncInv_initial : SyncInv initialCollectState where
  tbkKeysNodup := by simp [initialCollectState]
  tbkSetsNodup := by simp [initialCollectState]
  tbkNonempty := by simp [initialCollectState]
  fbtKeysNodup := by simp [initialCollectState]
  fbtMapsNodup := by simp [initialCollectState]
  sync1 := by intro key targets h; simp [initialCollectState, mapGet] at h
  sync2 := by intro t tf key nodes h; simp [initialCollectState, mapGet] at h
  baseScoped := by simp [initialCollectState]

theorem SyncInv_recordField {s : CollectState} (key : String) (target : Target)
    (node : FieldNode) (inv : SyncInv s)
    (hbs : target = Target.base ∨ ∃ i l, target = Target.deferred i l Target.base) :
    SyncInv (recordField s key target node) := by
  have hktNodup : ((mapGet s.targetsByKey key).getD []).Nodup := by
    cases h : mapGet s.targetsByKey key with
    | none => simp
    | some ts => simpa using inv.tbkSetsNodup (key, ts) (mapGet_some_mem h)
  have htfNodup : (((mapGet s.fieldsByTarget target).getD []).map Prod.fst).Nodup := by
    cases h : mapGet s.fieldsByTarget target with
    | none => simp
    | some tf => simpa using inv.fbtMapsNodup (target, tf) (mapGet_some_mem h)
  have hliftNe : ∀ t k', k' ≠ key →
      nodesAt (mapSet s.fieldsByTarget target
        (accAdd ((mapGet s.fieldsByTarget target).getD []) key node)) t k'
        = nodesAt s.fieldsByTarget t k' := by
    intro t k' hk'
    unfold nodesAt
    by_cases ht2 : t = target
    · subst ht2
      rw [mapGet_mapSet_self]
      cases hmg : mapGet s.fieldsByTarget t with
      | none => simp [mapGet_accAdd_ne _ _ hk', mapGet, Ne.symm hk']
      | some tf => simp [mapGet_accAdd_ne _ _ hk']
    · rw [mapGet_mapSet_ne _ _ ht2]
  have hliftKeyOther : ∀ t, t ≠ target →
      nodesAt (mapSet s.fieldsByTarget target
        (accAdd ((mapGet s.fieldsByTarget target).getD []) key node)) t key
        = nodesAt s.fieldsByTarget t key := by
    intro t ht2
    unfold nodesAt
    rw [mapGet_mapSet_ne _ _ ht2]
  have hliftKeyTarget :
      nodesAt (mapSet s.fieldsByTarget target
        (accAdd ((mapGet s.fieldsByTarget target).getD []) key node)) target key
        = some ((nodesAt s.fieldsByTarget target key).getD [] ++ [node]) := by
    unfold nodesAt
    rw [mapGet_mapSet_self]
    show mapGet (accAdd ((mapGet s.fieldsByTarget target).getD []) key node) key = _
    rw [mapGet_accAdd_self]
    cases hmg : mapGet s.fieldsByTarget target with
    | none => simp [mapGet]
    | some tf => simp
  refine ⟨?_, ?_, ?_, ?_, ?_, ?_, ?_, ?_⟩
  · exact nodup_map_fst_mapSet _ _ inv.tbkKeysNodup
  · intro e he
    rcases mem_mapSet he with hold | rfl
    · exact inv.tbkSetsNodup e hold
    · exact nodup_setAdd hktNodup target
  · intro e he
    rcases mem_mapSet he with hold | rfl
    · exact inv.tbkNonempty e hold
    · exact setAdd_ne_nil _ _
  · exact nodup_map_fst_mapSet _ _ inv.fbtKeysNodup
  · intro e he
    rcases mem_mapSet he with hold | rfl
    · exact inv.fbtMapsNodup e hold
    · exact nodup_map_fst_accAdd _ _ htfNodup
  · intro key' targets' hget t ht
    simp only [recordField] at hget ⊢
    by_cases hk : key' = key
    · subst hk
      rw [mapGet_mapSet_self] at hget
      have htargets' : targets' = setAdd ((mapGet s.targetsByKey key').getD []) target :=
        (Option.some.inj hget).symm
      rw [htargets'] at ht
      rcases mem_setAdd.mp ht with htk | rfl
      · cases hts : mapGet s.targetsByKey key' with
        | none =>
          rw [hts] at htk
          simp at htk
        | some ts0 =>
          rw [hts] at htk
          simp only [Option.getD_some] at htk
          obtain ⟨nodes, hn, hne⟩ := inv.sync1 key' ts0 hts t htk
          by_cases ht2 : t = target
          · subst ht2
            refine ⟨(nodesAt s.fieldsByTarget t key').getD [] ++ [node], hliftKeyTarget, by simp⟩
          · exact ⟨nodes, (hliftKeyOther t ht2).trans hn, hne⟩
      · exact ⟨(nodesAt s.fieldsByTarget t key').getD [] ++ [node],
          hliftKeyTarget, by simp⟩
    · rw [mapGet_mapSet_ne _ _ hk] at hget
      obtain ⟨nodes, hn, hne⟩ := inv.sync1 key' targets' hget t ht
      exact ⟨nodes, (hliftNe t key' hk).trans hn, hne⟩
  · intro t tf' key' nodes' hget1 hget2
    simp only [recordField] at hget1 ⊢
    by_cases ht : t = target
    · subst ht
      rw [mapGet_mapSet_self] at hget1
      have htf' : tf' = accAdd ((mapGet s.fieldsByTarget t).getD []) key node :=
        (Option.some.inj hget1).symm
      by_cases hk : key' = key
      · subst hk
        exact ⟨setAdd ((mapGet s.targetsByKey key').getD []) t,
          mapGet_mapSet_self _ _ _, mem_setAdd.mpr (Or.inr rfl)⟩
      · rw [htf', mapGet_accAdd_ne _ _ hk] at hget2
        cases hmg : mapGet s.fieldsByTarget t with
        | none =>
          rw [hmg] at hget2
          simp [mapGet] at hget2
        | some tf0 =>
          rw [hmg] at hget2
          simp only [Option.getD_some] at hget2
          obtain ⟨targets0, hg, hmem⟩ := inv.sync2 t tf0 key' nodes' hmg hget2
          exact ⟨targets0, by rw [mapGet_mapSet_ne _ _ hk]; exact hg, hmem⟩
    · rw [mapGet_mapSet_ne _ _ ht] at hget1
      obtain ⟨targets0, hg, hmem⟩ := inv.sync2 t tf' key' nodes' hget1 hget2
      by_cases hk : key' = key
      · subst hk
        refine ⟨setAdd ((mapGet s.targetsByKey key').getD []) target,
          mapGet_mapSet_self _ _ _, ?_⟩
        rw [hg]
        exact mem_setAdd.mpr (Or.inl (by simpa using hmem))
      · exact ⟨targets0, by rw [mapGet_mapSet_ne _ _ hk]; exact hg, hmem⟩
  · intro e he t ht
    rcases mem_mapSet he with hold | rfl
    · exact inv.baseScoped e hold t ht
    · rcases mem_setAdd.mp ht with htk | rfl
      · cases hts : mapGet s.targetsByKey key with
        | none =>
          rw [hts] at htk
          simp at htk
        | some ts0 =>
          rw [hts] at htk
          simp only [Option.getD_some] at htk
          exact inv.baseScoped (key, ts0) (mapGet_some_mem hts) t htk
      · exact hbs

theorem nullishOr_baseScoped {newTarget : Target}
    (hbs : newTarget = Target.base ∨ ∃ i l, newTarget = Target.deferred i l Target.base) :
    nullishOr newTarget Target.base = Target.base ∨
      ∃ i l, nullishOr newTarget Target.base = Target.deferred i l Target.base := by
  rcases hbs with rfl | ⟨i, l, rfl⟩
  · exact Or.inl rfl
  · exact Or.inr ⟨i, l, rfl⟩

theorem SyncInv_of_aux {s : CollectState} (inv : SyncInv s)
    (newDeferUsages : List Target) (visitedFragmentNames : List String)
    (nextId : Nat) :
    SyncInv { s with newDeferUsages := newDeferUsages,
                     visitedFragmentNames := visitedFragmentNames,
                     nextId := nextId } :=
  ⟨inv.tbkKeysNodup, inv.tbkSetsNodup, inv.tbkNonempty, inv.fbtKeysNodup,
   inv.fbtMapsNodup, inv.sync1, inv.sync2, inv.baseScoped⟩

theorem collectFieldsImpl_SyncInv :
    ∀ (fuel : Nat) (ctx : CollectContext) (selections : List Selection)
      (newTarget : Target) (s s' : CollectState),
      SyncInv s →
      (newTarget = Target.base ∨ ∃ i l, newTarget = Target.deferred i l Target.base) →
      collectFieldsImpl ctx fuel selections .base newTarget s = .ok s' →
      SyncInv s' := by
  intro fuel
  induction fuel with
  | zero =>
    intro ctx selections newTarget s s' _ _ h
    simp only [collectFieldsImpl] at h
    exact Except.noConfusion h
  | succ fuel ih =>
    intro ctx selections newTarget s s' inv hbs h
    cases selections with
    | nil =>
      simp only [collectFieldsImpl, Except.ok.injEq] at h
      rw [← h]
      exact inv
    | cons selection rest =>
      cases selection with
      | field node =>
        by_cases hinc : shouldIncludeNode ctx.variableValues node.directives = true
        · simp only [collectFieldsImpl, hinc, if_true] at h
          exact ih ctx rest newTarget _ s'
            (SyncInv_recordField _ _ _ inv (nullishOr_baseScoped hbs)) hbs h
        · rw [Bool.not_eq_true] at hinc
          simp only [collectFieldsImpl, hinc, Bool.false_eq_true, if_false] at h
          exact ih ctx rest newTarget s s' inv hbs h
      | inlineFragment tc dirs sels =>
        by_cases hcond : (shouldIncludeNode ctx.variableValues dirs
            && doesFragmentConditionMatch ctx.schema tc ctx.runtimeType) = true
        · cases hdef : getDeferValues ctx.operation ctx.variableValues dirs with
          | error err =>
            simp only [collectFieldsImpl, hcond, hdef, if_true] at h
            exact Except.noConfusion h
          | ok defer =>
            cases defer with
            | none =>
              simp only [collectFieldsImpl, hcond, hdef, if_true] at h
              cases h1 : collectFieldsImpl ctx fuel sels Target.base newTarget s with
              | error err =>
                simp only [h1] at h
                exact Except.noConfusion h
              | ok s1 =>
                simp only [h1] at h
                exact ih ctx rest newTarget s1 s'
                  (ih ctx sels newTarget s s1 inv hbs h1) hbs h
            | some dv =>
              simp only [collectFieldsImpl, hcond, hdef, if_true] at h
              cases h1 : collectFieldsImpl ctx fuel sels Target.base
                  (Target.deferred s.nextId dv.label Target.base)
                  { s with
                    newDeferUsages :=
                      s.newDeferUsages ++ [Target.deferred s.nextId dv.label Target.base]
                    nextId := s.nextId + 1 } with
              | error err =>
                simp only [h1] at h
                exact Except.noConfusion h
              | ok s1 =>
                simp only [h1] at h
                have inv0 : SyncInv { s with
                    newDeferUsages :=
                      s.newDeferUsages ++ [Target.deferred s.nextId dv.label Target.base]
                    nextId := s.nextId + 1 } :=
                  ⟨inv.tbkKeysNodup, inv.tbkSetsNodup, inv.tbkNonempty,
                   inv.fbtKeysNodup, inv.fbtMapsNodup, inv.sync1, inv.sync2,
                   inv.baseScoped⟩
                exact ih ctx rest newTarget s1 s'
                  (ih ctx sels _ _ s1 inv0 (Or.inr ⟨_, _, rfl⟩) h1) hbs h
        · rw [Bool.not_eq_true] at hcond
          simp only [collectFieldsImpl, hcond, Bool.false_eq_true, if_false] at h
          exact ih ctx rest newTarget s s' inv hbs h
      | fragmentSpread fragName dirs =>
        by_cases hinc : shouldIncludeNode ctx.variableValues dirs = true
        · cases hdef : getDeferValues ctx.operation ctx.variableValues dirs with
          | error err =>
            simp only [collectFieldsImpl, hinc, hdef, if_true] at h
            exact Except.noConfusion h
          | ok defer =>
            by_cases hskip : (s.visitedFragmentNames.contains fragName
                && defer == none) = true
            · simp only [collectFieldsImpl, hinc, hdef, hskip, if_true] at h
              exact ih ctx rest newTarget s s' inv hbs h
            · rw [Bool.not_eq_true] at hskip
              cases hfrag : mapGet ctx.fragments fragName with
              | none =>
                simp only [collectFieldsImpl, hinc, hdef, hskip, hfrag,
                  Bool.false_eq_true, if_false, if_true] at h
                exact ih ctx rest newTarget s s' inv hbs h
              | some fragment =>
                by_cases hmatch : doesFragmentConditionMatch ctx.schema
                    fragment.typeCondition ctx.runtimeType = true
                · cases defer with
                  | none =>
                    simp only [collectFieldsImpl, hinc, hdef, hskip, hfrag, hmatch,
                      Bool.false_eq_true, if_false, if_true] at h
                    cases h1 : collectFieldsImpl ctx fuel fragment.selectionSet
                        Target.base newTarget
                        { s with visitedFragmentNames := setAdd s.visitedFragmentNames fragName } with
                    | error err =>
                      simp only [h1] at h
                      exact Except.noConfusion h
                    | ok s1 =>
                      simp only [h1] at h
                      have inv0 : SyncInv
                          { s with visitedFragmentNames := setAdd s.visitedFragmentNames fragName } :=
                        ⟨inv.tbkKeysNodup, inv.tbkSetsNodup, inv.tbkNonempty,
                         inv.fbtKeysNodup, inv.fbtMapsNodup, inv.sync1, inv.sync2,
                         inv.baseScoped⟩
                      exact ih ctx rest newTarget s1 s'
                        (ih ctx fragment.selectionSet newTarget _ s1 inv0 hbs h1) hbs h
                  | some dv =>
                    simp only [collectFieldsImpl, hinc, hdef, hskip, hfrag, hmatch,
                      Bool.false_eq_true, if_false, if_true] at h
                    cases h1 : collectFieldsImpl ctx fuel fragment.selectionSet
                        Target.base (Target.deferred s.nextId dv.label Target.base)
                        { s with
                          newDeferUsages :=
                            s.newDeferUsages ++ [Target.deferred s.nextId dv.label Target.base]
                          nextId := s.nextId + 1 } with
                    | error err =>
                      simp only [h1] at h
                      exact Except.noConfusion h
                    | ok s1 =>
                      simp only [h1] at h
                      have inv0 : SyncInv { s with
                          newDeferUsages :=
                            s.newDeferUsages ++ [Target.deferred s.nextId dv.label Target.base]
                          nextId := s.nextId + 1 } :=
                        ⟨inv.tbkKeysNodup, inv.tbkSetsNodup, inv.tbkNonempty,
                         inv.fbtKeysNodup, inv.fbtMapsNodup, inv.sync1, inv.sync2,
                         inv.baseScoped⟩
                      exact ih ctx rest newTarget s1 s'
                        (ih ctx fragment.selectionSet _ _ s1 inv0 (Or.inr ⟨_, _, rfl⟩) h1)
                        hbs h
                · rw [Bool.not_eq_true] at hmatch
                  simp only [collectFieldsImpl, hinc, hdef, hskip, hfrag, hmatch,
                    Bool.false_eq_true, if_false, if_true] at h
                  exact ih ctx rest newTarget s s' inv hbs h
        · rw [Bool.not_eq_true] at hinc
          simp only [collectFieldsImpl, hinc, Bool.false_eq_true, if_false] at h
          exact ih ctx rest newTarget s s' inv hbs h

theorem collectKeyFields_ok :
    ∀ (ts : List Target) (key : String) (acc : List FieldDetails)
      (fbt : FieldsByTarget),
      ts.Nodup →
      (∀ t ∈ ts, ∃ nodes, nodesAt fbt t key = some nodes) →
      ∃ out fbt2, collectKeyFields key ts acc fbt = .ok (out, fbt2) := by
  intro ts
  induction ts with
  | nil =>
    intro key acc fbt _ _
    exact ⟨acc, fbt, rfl⟩
  | cons t rest ih =>
    intro key acc fbt hnd hnodes
    rw [List.nodup_cons] at hnd
    obtain ⟨nodes, hn⟩ := hnodes t (List.mem_cons_self _ _)
    unfold nodesAt at hn
    cases hmg : mapGet fbt t with
    | none =>
      rw [hmg] at hn
      exact absurd hn (by simp)
    | some tf =>
      rw [hmg] at hn
      simp only [Option.some_bind] at hn
      have hpre : ∀ t' ∈ rest, ∃ nodes',
          nodesAt (mapSet fbt t (mapDelete tf key)) t' key = some nodes' := by
        intro t' ht'
        have hne : t' ≠ t := fun hc => hnd.1 (hc ▸ ht')
        obtain ⟨nodes', hn'⟩ := hnodes t' (List.mem_cons_of_mem _ ht')
        refine ⟨nodes', ?_⟩
        unfold nodesAt at hn' ⊢
        rw [mapGet_mapSet_ne _ _ hne]
        exact hn'
      obtain ⟨out, fbt2, hrec⟩ := ih key
        (acc ++ nodes.map fun node => { node := node, target := t })
        (mapSet fbt t (mapDelete tf key)) hnd.2 hpre
      refine ⟨out, fbt2, ?_⟩
      simp only [collectKeyFields, hmg, hn]
      exact hrec

theorem collectKeyFields_mapsNodup :
    ∀ (ts : List Target) (key : String) (acc : List FieldDetails)
      (fbt : FieldsByTarget) (out : List FieldDetails) (fbt2 : FieldsByTarget),
      collectKeyFields key ts acc fbt = .ok (out, fbt2) →
      (∀ e ∈ fbt, (e.2.map Prod.fst).Nodup) →
      ∀ e ∈ fbt2, (e.2.map Prod.fst).Nodup := by
  intro ts
  induction ts with
  | nil =>
    intro key acc fbt out fbt2 h hnd
    simp only [collectKeyFields, Except.ok.injEq, Prod.mk.injEq] at h
    rw [← h.2]
    exact hnd
  | cons t rest ih =>
    intro key acc fbt out fbt2 h hnd
    cases hmg : mapGet fbt t with
    | none =>
      simp only [collectKeyFields, hmg] at h
      exact Except.noConfusion h
    | some tf =>
      cases hnodes : mapGet tf key with
      | none =>
        simp only [collectKeyFields, hmg, hnodes] at h
        exact Except.noConfusion h
      | some nodes =>
        simp only [collectKeyFields, hmg, hnodes] at h
        refine ih key _ _ out fbt2 h ?_
        intro e he
        rcases mem_mapSet he with hold | rfl
        · exact hnd e hold
        · have htfnd : (tf.map Prod.fst).Nodup :=
            hnd (t, tf) (mapGet_some_mem hmg)
          exact ((mapDelete_sublist tf key).map Prod.fst).nodup htfnd

theorem orderedGroupLoop_ok :
    ∀ (entries : List (String × List FieldNode)) (keys : List String)
      (maskingTargets : List Target) (tbk : TargetsByKey)
      (acc : GroupedFieldSet) (fbt : FieldsByTarget),
      (entries.map Prod.fst).Nodup →
      (∀ e ∈ tbk, e.2.Nodup) →
      (∀ k, k ∈ entries.map Prod.fst → keys.contains k = true →
        ∃ kts, mapGet tbk k = some kts ∧
          ∀ t ∈ kts, ∃ nodes, nodesAt fbt t k = some nodes) →
      ∃ gfs fbt2, orderedGroupLoop keys maskingTargets tbk entries acc fbt
        = .ok (gfs, fbt2) := by
  intro entries
  induction entries with
  | nil =>
    intro keys maskingTargets tbk acc fbt _ _ _
    exact ⟨acc, fbt, rfl⟩
  | cons e rest ih =>
    intro keys maskingTargets tbk acc fbt hnd htbk hcond
    obtain ⟨k0, ns0⟩ := e
    rw [List.map_cons, List.nodup_cons] at hnd
    by_cases hin : keys.contains k0 = true
    · obtain ⟨kts, hktk, hnodes⟩ := hcond k0 (by simp) hin
      have hknd : kts.Nodup := htbk (k0, kts) (mapGet_some_mem hktk)
      obtain ⟨out, fbt1, hok⟩ := collectKeyFields_ok kts k0 [] fbt hknd hnodes
      obtain ⟨_, hpres⟩ := collectKeyFields_spec kts k0 [] fbt out fbt1 hknd hok
      have hpre2 : ∀ k, k ∈ rest.map Prod.fst → keys.contains k = true →
          ∃ kts', mapGet tbk k = some kts' ∧
            ∀ t ∈ kts', ∃ nodes, nodesAt fbt1 t k = some nodes := by
        intro k hk hkin
        have hkne : k ≠ k0 := fun hc => hnd.1 (hc ▸ hk)
        obtain ⟨kts', hktk', hnodes'⟩ := hcond k (by simp [hk]) hkin
        refine ⟨kts', hktk', fun t ht => ?_⟩
        obtain ⟨nodes', hn'⟩ := hnodes' t ht
        exact ⟨nodes', (hpres t k hkne).trans hn'⟩
      obtain ⟨gfs, fbt2, hrec⟩ := ih keys maskingTargets tbk
        (mapSet acc k0
          { fields := ((mapGet acc k0).getD { fields := [], targets := maskingTargets }).fields ++ out,
            targets := ((mapGet acc k0).getD { fields := [], targets := maskingTargets }).targets })
        fbt1 hnd.2 htbk hpre2
      refine ⟨gfs, fbt2, ?_⟩
      simp only [orderedGroupLoop, hin, hktk, hok, if_true]
      exact hrec
    · rw [Bool.not_eq_true] at hin
      obtain ⟨gfs, fbt2, hrec⟩ := ih keys maskingTargets tbk acc fbt hnd.2 htbk
        (fun k hk hkin => hcond k (by simp [hk]) hkin)
      refine ⟨gfs, fbt2, ?_⟩
      simp only [orderedGroupLoop, hin, Bool.false_eq_true, if_false]
      exact hrec

theorem orderedGroupLoop_preserve :
    ∀ (entries : List (String × List FieldNode)) (keys : List String)
      (maskingTargets : List Target) (tbk : TargetsByKey)
      (acc : GroupedFieldSet) (fbt : FieldsByTarget)
      (gfs : GroupedFieldSet) (fbt2 : FieldsByTarget),
      (∀ e ∈ tbk, e.2.Nodup) →
      orderedGroupLoop keys maskingTargets tbk entries acc fbt = .ok (gfs, fbt2) →
      (∀ t k', keys.contains k' = false → nodesAt fbt2 t k' = nodesAt fbt t k') ∧
      ((∀ e ∈ fbt, (e.2.map Prod.fst).Nodup) →
        ∀ e ∈ fbt2, (e.2.map Prod.fst).Nodup) := by
  intro entries
  induction entries with
  | nil =>
    intro keys maskingTargets tbk acc fbt gfs fbt2 _ h
    simp only [orderedGroupLoop, Except.ok.injEq, Prod.mk.injEq] at h
    rw [← h.2]
    exact ⟨fun _ _ _ => rfl, fun hnd => hnd⟩
  | cons e rest ih =>
    intro keys maskingTargets tbk acc fbt gfs fbt2 htbk h
    obtain ⟨k0, ns0⟩ := e
    by_cases hin : keys.contains k0 = true
    · cases hktk : mapGet tbk k0 with
      | none =>
        simp only [orderedGroupLoop, hin, hktk, if_true] at h
        exact Except.noConfusion h
      | some kts =>
        cases hok : collectKeyFields k0 kts [] fbt with
        | error err =>
          simp only [orderedGroupLoop, hin, hktk, hok, if_true] at h
          exact Except.noConfusion h
        | ok pair =>
          obtain ⟨out, fbt1⟩ := pair
          simp only [orderedGroupLoop, hin, hktk, hok, if_true] at h
          have hknd : kts.Nodup := htbk (k0, kts) (mapGet_some_mem hktk)
          obtain ⟨_, hpres⟩ := collectKeyFields_spec kts k0 [] fbt out fbt1 hknd hok
          obtain ⟨ihp, ihn⟩ := ih keys maskingTargets tbk _ fbt1 gfs fbt2 htbk h
          refine ⟨?_, ?_⟩
          · intro t k' hk'
            have hkne : k' ≠ k0 := by
              intro hc
              rw [hc, hin] at hk'
              exact Bool.noConfusion hk'
            exact (ihp t k' hk').trans (hpres t k' hkne)
          · intro hnd
            exact ihn (collectKeyFields_mapsNodup kts k0 [] fbt out fbt1 hok hnd)
    · rw [Bool.not_eq_true] at hin
      simp only [orderedGroupLoop, hin, Bool.false_eq_true, if_false] at h
      exact ih keys maskingTargets tbk acc fbt gfs fbt2 htbk h

theorem getOrderedGroupedFieldSet_ok :
    ∀ (keys : List String) (maskingTargets : List Target) (tbk : TargetsByKey)
      (fbt : FieldsByTarget) (firstFields : List (String × List FieldNode)),
      mapGet fbt (firstTargetOf maskingTargets) = some firstFields →
      (firstFields.map Prod.fst).Nodup →
      (∀ e ∈ tbk, e.2.Nodup) →
      (∀ k, k ∈ firstFields.map Prod.fst → keys.contains k = true →
        ∃ kts, mapGet tbk k = some kts ∧
          ∀ t ∈ kts, ∃ nodes, nodesAt fbt t k = some nodes) →
      ∃ gfs fbt2, getOrderedGroupedFieldSet keys maskingTargets tbk fbt
        = .ok (gfs, fbt2) := by
  intro keys maskingTargets tbk fbt firstFields hff hffnd htbk hcond
  obtain ⟨gfs, fbt2, h⟩ := orderedGroupLoop_ok firstFields keys maskingTargets
    tbk [] fbt hffnd htbk hcond
  refine ⟨gfs, fbt2, ?_⟩
  simp only [getOrderedGroupedFieldSet, hff]
  exact h

theorem getOrderedGroupedFieldSet_preserve :
    ∀ (keys : List String) (maskingTargets : List Target) (tbk : TargetsByKey)
      (fbt : FieldsByTarget) (gfs : GroupedFieldSet) (fbt2 : FieldsByTarget),
      (∀ e ∈ tbk, e.2.Nodup) →
      getOrderedGroupedFieldSet keys maskingTargets tbk fbt = .ok (gfs, fbt2) →
      (∀ t k', keys.contains k' = false → nodesAt fbt2 t k' = nodesAt fbt t k') ∧
      ((∀ e ∈ fbt, (e.2.map Prod.fst).Nodup) →
        ∀ e ∈ fbt2, (e.2.map Prod.fst).Nodup) := by
  intro keys maskingTargets tbk fbt gfs fbt2 htbk h
  cases hff : mapGet fbt (firstTargetOf maskingTargets) with
  | none =>
    simp only [getOrderedGroupedFieldSet, hff] at h
    exact Except.noConfusion h
  | some firstFields =>
    simp only [getOrderedGroupedFieldSet, hff] at h
    exact orderedGroupLoop_preserve firstFields keys maskingTargets tbk [] fbt
      gfs fbt2 htbk h

theorem newGroupedFieldSetLoop_ok :
    ∀ (dm : TargetSetDetailsMap) (tbk : TargetsByKey) (fbt0 fbt : FieldsByTarget)
      (acc : List (List Target × GroupedFieldSetDetails)),
      (∀ e ∈ tbk, e.2.Nodup) →
      (∀ M d, (M, d) ∈ dm → M ≠ [] ∧ d.keys ≠ [] ∧
        ∀ k ∈ d.keys, ∃ kts, mapGet tbk k = some kts ∧
          (∀ t ∈ M, t ∈ kts) ∧
          ∀ t ∈ kts, ∃ nodes, nodesAt fbt0 t k = some nodes) →
      (dm.Pairwise fun e1 e2 => ∀ k, k ∈ e1.2.keys → k ∉ e2.2.keys) →
      (∀ t k, (∃ M d, (M, d) ∈ dm ∧ k ∈ d.keys) →
        nodesAt fbt t k = nodesAt fbt0 t k) →
      (∀ e ∈ fbt, (e.2.map Prod.fst).Nodup) →
      ∃ out fbt2, newGroupedFieldSetLoop tbk dm acc fbt = .ok (out, fbt2) := by
  intro dm
  induction dm with
  | nil =>
    intro tbk fbt0 fbt acc _ _ _ _ _
    exact ⟨acc, fbt, rfl⟩
  | cons e rest ih =>
    intro tbk fbt0 fbt acc htbk hbuckets hdisj hagree hnd
    obtain ⟨M, d⟩ := e
    obtain ⟨hMne, hkne, hkeys⟩ := hbuckets M d (List.mem_cons_self _ _)
    have hft : firstTargetOf M ∈ M := by
      cases M with
      | nil => exact absurd rfl hMne
      | cons t ts => exact List.mem_cons_self _ _
    obtain ⟨k0, hk0⟩ := List.exists_mem_of_ne_nil d.keys hkne
    obtain ⟨kts0, hktk0, hsub0, hnodes0⟩ := hkeys k0 hk0
    obtain ⟨nodes0, hn0⟩ := hnodes0 _ (hsub0 _ hft)
    have hn0' : nodesAt fbt (firstTargetOf M) k0 = some nodes0 := by
      rw [hagree _ _ ⟨M, d, List.mem_cons_self _ _, hk0⟩]
      exact hn0
    have hffex : ∃ ff, mapGet fbt (firstTargetOf M) = some ff := by
      unfold nodesAt at hn0'
      cases hmg : mapGet fbt (firstTargetOf M) with
      | none =>
        rw [hmg] at hn0'
        exact absurd hn0' (by simp)
      | some ff => exact ⟨ff, rfl⟩
    obtain ⟨ff, hffg⟩ := hffex
    have hffnd : (ff.map Prod.fst).Nodup := hnd (_, ff) (mapGet_some_mem hffg)
    have hcond : ∀ k, k ∈ ff.map Prod.fst → d.keys.contains k = true →
        ∃ kts, mapGet tbk k = some kts ∧
          ∀ t ∈ kts, ∃ nodes, nodesAt fbt t k = some nodes := by
      intro k _ hkin
      have hkmem : k ∈ d.keys := List.elem_iff.mp hkin
      obtain ⟨kts, hktk, _, hnodes⟩ := hkeys k hkmem
      refine ⟨kts, hktk, fun t ht => ?_⟩
      obtain ⟨nodes, hn⟩ := hnodes t ht
      refine ⟨nodes, ?_⟩
      rw [hagree t k ⟨M, d, List.mem_cons_self _ _, hkmem⟩]
      exact hn
    obtain ⟨ngfs, fbt1, hgok⟩ := getOrderedGroupedFieldSet_ok d.keys M tbk fbt ff
      hffg hffnd htbk hcond
    obtain ⟨hpres1, hnd1⟩ := getOrderedGroupedFieldSet_preserve d.keys M tbk fbt
      ngfs fbt1 htbk hgok
    rw [List.pairwise_cons] at hdisj
    have hagree1 : ∀ t k, (∃ M' d', (M', d') ∈ rest ∧ k ∈ d'.keys) →
        nodesAt fbt1 t k = nodesAt fbt0 t k := by
      rintro t k ⟨M', d', hm', hk'⟩
      have hknin : d.keys.contains k = false := by
        by_cases hc : d.keys.contains k = true
        · exact absurd hk' (hdisj.1 (M', d') hm' k (List.elem_iff.mp hc))
        · rwa [Bool.not_eq_true] at hc
      rw [hpres1 t k hknin]
      exact hagree t k ⟨M', d', List.mem_cons_of_mem _ hm', hk'⟩
    obtain ⟨out, fbt2, hrec⟩ := ih tbk fbt0 fbt1
      (acc ++ [(M, { groupedFieldSet := ngfs,
                     shouldInitiateDefer := d.shouldInitiateDefer })])
      htbk (fun M' d' hm => hbuckets M' d' (List.mem_cons_of_mem _ hm)) hdisj.2
      hagree1 (hnd1 hnd)
    refine ⟨out, fbt2, ?_⟩
    simp only [newGroupedFieldSetLoop, hgok]
    exact hrec

theorem buildGroupedFieldSets_ok :
    ∀ (tbk : TargetsByKey) (fbt : FieldsByTarget),
      (tbk.map Prod.fst).Nodup →
      (∀ e ∈ tbk, e.2.Nodup) →
      (∀ e ∈ tbk, e.2 ≠ []) →
      (∀ e ∈ fbt, (e.2.map Prod.fst).Nodup) →
      (∀ key targets, mapGet tbk key = some targets →
        ∀ t ∈ targets, ∃ nodes, nodesAt fbt t key = some nodes ∧ nodes ≠ []) →
      (∀ e ∈ tbk, ∀ t ∈ e.2,
        t = Target.base ∨ ∃ i l, t = Target.deferred i l Target.base) →
      ∃ r, buildGroupedFieldSets tbk fbt = .ok r := by
  intro tbk fbt hkeys hsets hne hfnd hsync1 hbase
  have hptsnd : NON_DEFERRED_TARGET_SET.Nodup := by
    simp [NON_DEFERRED_TARGET_SET]
  have spec := getTargetSetDetails_spec tbk NON_DEFERRED_TARGET_SET hkeys hsets hptsnd
  have hmaskne : ∀ key ts, (key, ts) ∈ tbk → maskingTargetListOf ts ≠ [] := by
    intro key ts hmem
    by_cases hb : Target.base ∈ ts
    · have h1 : Target.base ∈ maskingTargetListOf ts :=
        mem_maskingTargetListOf.mpr ⟨hb, by simp [Target.ancestorsOf]⟩
      intro hc
      rw [hc] at h1
      exact List.not_mem_nil _ h1
    · obtain ⟨t0, ht0⟩ := List.exists_mem_of_ne_nil ts (hne (key, ts) hmem)
      rcases hbase (key, ts) hmem t0 ht0 with rfl | ⟨i, l, rfl⟩
      · exact absurd ht0 hb
      · have h1 : Target.deferred i l Target.base ∈ maskingTargetListOf ts := by
          refine mem_maskingTargetListOf.mpr ⟨ht0, ?_⟩
          intro a ha
          simp [Target.ancestorsOf] at ha
          rw [ha]
          exact hb
        intro hc
        rw [hc] at h1
        exact List.not_mem_nil _ h1
  -- facts about the phase-2 buckets, relative to the original fbt
  have hbuckets : ∀ M d, (M, d) ∈ (getTargetSetDetails tbk NON_DEFERRED_TARGET_SET).2 →
      M ≠ [] ∧ d.keys ≠ [] ∧
      ∀ k ∈ d.keys, ∃ kts, mapGet tbk k = some kts ∧
        (∀ t ∈ M, t ∈ kts) ∧
        ∀ t ∈ kts, ∃ nodes, nodesAt fbt t k = some nodes := by
    intro M d hm
    have hkne : d.keys ≠ [] := spec.keysNonempty M d hm
    obtain ⟨k0, hk0⟩ := List.exists_mem_of_ne_nil d.keys hkne
    obtain ⟨ts0, hmem0, hsm0, _⟩ := spec.keysSound M d k0 hm hk0
    have hMne : M ≠ [] := by
      obtain ⟨t0, ht0⟩ := List.exists_mem_of_ne_nil _ (hmaskne k0 ts0 hmem0)
      intro hc
      have := (hsm0 t0).mpr ht0
      rw [hc] at this
      exact List.not_mem_nil _ this
    refine ⟨hMne, hkne, fun k hk => ?_⟩
    obtain ⟨ts, hmem, hsm, _⟩ := spec.keysSound M d k hm hk
    have hts : mapGet tbk k = some ts := mapGet_of_mem_nodup hmem hkeys
    refine ⟨ts, hts, fun t ht => ?_, fun t ht => ?_⟩
    · exact (mem_maskingTargetListOf.mp ((hsm t).mp ht)).1
    · obtain ⟨nodes, hn, _⟩ := hsync1 k ts hts t ht
      exact ⟨nodes, hn⟩
  have hdisj : (getTargetSetDetails tbk NON_DEFERRED_TARGET_SET).2.Pairwise
      fun e1 e2 => ∀ k, k ∈ e1.2.keys → k ∉ e2.2.keys := by
    refine List.Pairwise.imp_of_mem ?_ spec.pairwiseDistinct
    intro e1 e2 h1 h2 hR k hk1 hk2
    obtain ⟨ts1, hmem1, hsm1, _⟩ := spec.keysSound e1.1 e1.2 k (by simpa using h1) hk1
    obtain ⟨ts2, hmem2, hsm2, _⟩ := spec.keysSound e2.1 e2.2 k (by simpa using h2) hk2
    have hts12 : ts1 = ts2 := assoc_functional hkeys hmem1 hmem2
    rw [hts12] at hsm1
    exact hR (sameMembers_trans hsm1 (sameMembers_symm hsm2))
  -- phase-2 success, for any current per-target map agreeing with the
  -- original on all bucket keys
  have hphase2 : ∀ fbt1,
      (∀ t k, (∃ M d, (M, d) ∈ (getTargetSetDetails tbk NON_DEFERRED_TARGET_SET).2 ∧
          k ∈ d.keys) → nodesAt fbt1 t k = nodesAt fbt t k) →
      (∀ e ∈ fbt1, (e.2.map Prod.fst).Nodup) →
      ∃ out fbt2, newGroupedFieldSetLoop tbk
        (getTargetSetDetails tbk NON_DEFERRED_TARGET_SET).2 [] fbt1
        = .ok (out, fbt2) := by
    intro fbt1 hagree hnd1
    exact newGroupedFieldSetLoop_ok _ tbk fbt fbt1 [] hsets hbuckets hdisj hagree hnd1
  by_cases hlen : (getTargetSetDetails tbk NON_DEFERRED_TARGET_SET).1.length > 0
  · -- the base grouped field set is actually built
    have hptkne : (getTargetSetDetails tbk NON_DEFERRED_TARGET_SET).1 ≠ [] := by
      intro hc
      rw [hc] at hlen
      simp at hlen
    obtain ⟨key0, hkey0⟩ := List.exists_mem_of_ne_nil _ hptkne
    obtain ⟨ts0, hmem0, hsm0⟩ := (spec.memPtk key0).mp hkey0
    have hbase0 : Target.base ∈ maskingTargetListOf ts0 :=
      (hsm0 Target.base).mpr (by simp [NON_DEFERRED_TARGET_SET])
    have hts0get : mapGet tbk key0 = some ts0 := mapGet_of_mem_nodup hmem0 hkeys
    obtain ⟨nodes0, hn0, _⟩ := hsync1 key0 ts0 hts0get _
      (mem_maskingTargetListOf.mp hbase0).1
    have hffex : ∃ ff, mapGet fbt (firstTargetOf NON_DEFERRED_TARGET_SET) = some ff := by
      unfold nodesAt at hn0
      cases hmg : mapGet fbt Target.base with
      | none =>
        rw [hmg] at hn0
        exact absurd hn0 (by simp)
      | some ff => exact ⟨ff, hmg⟩
    obtain ⟨ff, hffg⟩ := hffex
    have hcond1 : ∀ k, k ∈ ff.map Prod.fst →
        (getTargetSetDetails tbk NON_DEFERRED_TARGET_SET).1.contains k = true →
        ∃ kts, mapGet tbk k = some kts ∧
          ∀ t ∈ kts, ∃ nodes, nodesAt fbt t k = some nodes := by
      intro k _ hkin
      obtain ⟨ts, hmem, _⟩ := (spec.memPtk k).mp (List.elem_iff.mp hkin)
      have hts : mapGet tbk k = some ts := mapGet_of_mem_nodup hmem hkeys
      refine ⟨ts, hts, fun t ht => ?_⟩
      obtain ⟨nodes, hn, _⟩ := hsync1 k ts hts t ht
      exact ⟨nodes, hn⟩
    obtain ⟨gfs0, fbt1, hgok1⟩ := getOrderedGroupedFieldSet_ok
      (getTargetSetDetails tbk NON_DEFERRED_TARGET_SET).1 NON_DEFERRED_TARGET_SET
      tbk fbt ff hffg (hfnd (_, ff) (mapGet_some_mem hffg)) hsets hcond1
    obtain ⟨hpres1, hnd1⟩ := getOrderedGroupedFieldSet_preserve _ _ tbk fbt gfs0 fbt1
      hsets hgok1
    have hagree1 : ∀ t k,
        (∃ M d, (M, d) ∈ (getTargetSetDetails tbk NON_DEFERRED_TARGET_SET).2 ∧
          k ∈ d.keys) → nodesAt fbt1 t k = nodesAt fbt t k := by
      rintro t k ⟨M, d, hm, hk⟩
      obtain ⟨ts, hmem, hsm, hnsame⟩ := spec.keysSound M d k hm hk
      have hnin : (getTargetSetDetails tbk NON_DEFERRED_TARGET_SET).1.contains k = false := by
        by_cases hc : (getTargetSetDetails tbk NON_DEFERRED_TARGET_SET).1.contains k = true
        · obtain ⟨ts', hmem', hsm'⟩ := (spec.memPtk k).mp (List.elem_iff.mp hc)
          rw [assoc_functional hkeys hmem hmem'] at hnsame
          exact absurd hsm' hnsame
        · rwa [Bool.not_eq_true] at hc
      exact hpres1 t k hnin
    obtain ⟨out, fbt2, hloopok⟩ := hphase2 fbt1 hagree1 (hnd1 hfnd)
    refine ⟨{ groupedFieldSet := gfs0, newGroupedFieldSetDetails := out }, ?_⟩
    simp only [buildGroupedFieldSets]
    rw [if_pos hlen]
    simp only [hgok1, hloopok]
  · -- no base keys: the base grouped field set is the empty map
    obtain ⟨out, fbt2, hloopok⟩ := hphase2 fbt (fun _ _ _ => rfl) hfnd
    refine ⟨{ groupedFieldSet := [], newGroupedFieldSetDetails := out }, ?_⟩
    simp only [buildGroupedFieldSets]
    rw [if_neg hlen]
    simp only [hloopok]

/-- C10: a collection run keeps the two accumulators synchronized — every
target listed for a key in `targetsByKey` owns a non-empty node list for
that key in `fieldsByTarget` — and consequently building the grouped field
sets from a collection result never hits a missing entry: it returns a
result instead of the `missingEntry` error that an unchecked JS lookup
would raise. -/
theorem C10_accumulators_synchronized :
    ∀ (ctx : CollectContext) (fuel : Nat) (selections : List Selection)
      (s' : CollectState),
      collectFieldsImpl ctx fuel selections .base .base initialCollectState
        = .ok s' →
      (∀ key targets, mapGet s'.targetsByKey key = some targets →
        ∀ t ∈ targets, ∃ nodes, nodesAt s'.fieldsByTarget t key = some nodes ∧
          nodes ≠ []) ∧
      ∃ r, buildGroupedFieldSets s'.targetsByKey s'.fieldsByTarget = .ok r := by
  intro ctx fuel selections s' h
  have inv : SyncInv s' := collectFieldsImpl_SyncInv fuel ctx selections .base
    initialCollectState s' SyncInv_initial (Or.inl rfl) h
  exact ⟨inv.sync1,
    buildGroupedFieldSets_ok s'.targetsByKey s'.fieldsByTarget inv.tbkKeysNodup
      inv.tbkSetsNodup inv.tbkNonempty inv.fbtMapsNodup inv.sync1 inv.baseScoped⟩

/-- Closed witness for C10: the C3 scenario's collection run is
synchronized and its grouped-field-set build succeeds. -/
theorem C10_accumulators_synchronized_witness :
    (∀ key targets, mapGet c3FinalState.targetsByKey key = some targets →
      ∀ t ∈ targets, ∃ nodes,
        nodesAt c3FinalState.fieldsByTarget t key = some nodes ∧ nodes ≠ []) ∧
    ∃ r, buildGroupedFieldSets c3FinalState.targetsByKey
      c3FinalState.fieldsByTarget = .ok r :=
  C10_accumulators_synchronized c3Context 20 c3Operation.selectionSet
    c3FinalState (by decide)
